import Mathlib

/-!
# MAX7219 scrolling-text driver (`src/max7219_8X8.c`)

A shallow embedding of the firmware and the properties of its scroll buffer
and of its column-addressing protocol.

* The global `buffer` and everything the firmware sends out (chip-select edges,
  SPI bytes, busy-wait delays) form the state `Machine`.
* `uint8_t` and `uint16_t` values are natural numbers reduced modulo `2^8` and
  `2^16` where the C code converts to these types; `int` expressions are
  integers.
* Every `for` loop is run by `forLoop`, which counts the evaluations of the loop
  condition against a bound `fuel`; a loop that needs more reports
  `Fault.outOfFuel`, an array access outside the array reports
  `Fault.outOfBounds`.
* `NUM_DEVICES` is a parameter of every function that uses the macro; the
  table `characters` and the array `message` of the header
  `max7219_8x8.h` are parameters too.
-/

namespace Max7219

/-! ## State -/

/-- What leaves the microcontroller: the two edges of the chip-select line, a
byte clocked out over SPI, and a busy-wait of a number of microseconds. -/
inductive Event where
  | select
  | deselect
  | byte (b : Nat)
  | delay (us : Nat)
  deriving DecidableEq, Repr

/-- Why a run has no result in the model. -/
inductive Fault where
  | outOfFuel
  | outOfBounds
  deriving DecidableEq, Repr

/-- The global array `buffer` and the trace of events emitted so far, oldest
first. -/
structure Machine where
  buffer : List Nat
  trace : List Event
  deriving DecidableEq, Repr

/-- `#define DEL 14000`. -/
def DEL : Nat := 14000

/-- Conversion of an `int` value to `uint8_t`. -/
def toU8 (x : Int) : Nat := (x % 256).toNat

/-- `i++` on a `uint8_t`. -/
def incU8 (i : Nat) : Nat := (i + 1) % 256

/-- `k--` on a `uint8_t`. -/
def decU8 (k : Nat) : Nat := (k + 255) % 256

/-- `i++` on a `uint16_t`. -/
def incU16 (i : Nat) : Nat := (i + 1) % 65536

/-- The loop `for (c = start; cond c; c = next c) body c`. The first argument
bounds how often the condition may be evaluated. -/
def forLoop (cond : Nat → Bool) (next : Nat → Nat)
    (body : Nat → Machine → Except Fault Machine) :
    Nat → Nat → Machine → Except Fault Machine
  | 0, _, _ => .error .outOfFuel
  | fuel + 1, c, s =>
    if cond c then
      match body c s with
      | .ok s' => forLoop cond next body fuel (next c) s'
      | .error e => .error e
    else .ok s

/-- The read `buffer[idx]`. -/
def readBuffer (s : Machine) (idx : Int) : Except Fault Nat :=
  if 0 ≤ idx ∧ idx < s.buffer.length then .ok (s.buffer.getD idx.toNat 0)
  else .error .outOfBounds

/-- The assignment `buffer[idx] = v` of a `uint8_t` value `v`. -/
def writeBuffer (s : Machine) (idx : Int) (v : Nat) : Except Fault Machine :=
  if 0 ≤ idx ∧ idx < s.buffer.length then
    .ok { s with buffer := s.buffer.set idx.toNat v }
  else .error .outOfBounds

/-! ## The functions of `max7219_8X8.c` -/

/-- Modelled from the spec: the macro `SLAVE_SELECT` of the header
`max7219_8x8.h`, the "select" that begins a transaction. -/
def SLAVE_SELECT (s : Machine) : Machine :=
  { s with trace := s.trace ++ [Event.select] }

/-- Modelled from the spec: the macro `SLAVE_DESELECT` of the header
`max7219_8x8.h`, the "deselect" that ends a transaction. -/
def SLAVE_DESELECT (s : Machine) : Machine :=
  { s with trace := s.trace ++ [Event.deselect] }

/-- Modelled from the spec: `_delay_us` of the AVR library, a busy-wait of the
given number of microseconds. -/
def _delay_us (us : Nat) (s : Machine) : Machine :=
  { s with trace := s.trace ++ [Event.delay us] }

/-- `initSPI` sets bits of the I/O registers `DDRB`, `PORTB` and `SPCR` only;
it touches neither `buffer` nor the bus. -/
def initSPI (s : Machine) : Machine := s

/-- `writeByte`: the byte is handed to the SPI data register; the wait for the
completion flag is taken to end. -/
def writeByte (byte : Nat) (s : Machine) : Machine :=
  { s with trace := s.trace ++ [Event.byte (byte % 256)] }

/-- `writeWord`: address byte first, data byte second. -/
def writeWord (address data : Nat) (s : Machine) : Machine :=
  writeByte data (writeByte address s)

/-- One of the four blocks of `initMatrix`: select, the loop over the devices
writing the two bytes, deselect. -/
def initMatrix_pass (NUM_DEVICES fuel reg val : Nat) (s : Machine) :
    Except Fault Machine :=
  match forLoop (fun i => decide ((i : Int) < (NUM_DEVICES : Int))) incU8
      (fun _ s => .ok (writeByte val (writeByte reg s))) fuel 0 (SLAVE_SELECT s) with
  | .ok s' => .ok (SLAVE_DESELECT s')
  | .error e => .error e

/-- `initMatrix`: intensity, scan limit, shutdown, display test. -/
def initMatrix (NUM_DEVICES fuel : Nat) (s : Machine) : Except Fault Machine := do
  let s ← initMatrix_pass NUM_DEVICES fuel 0x0A 0x07 s
  let s ← initMatrix_pass NUM_DEVICES fuel 0x0B 0x07 s
  let s ← initMatrix_pass NUM_DEVICES fuel 0x0C 0x01 s
  initMatrix_pass NUM_DEVICES fuel 0x0F 0x00 s

/-- The body of the outer loop of `clearMatrix` (lines 100 to 106): the
transaction that clears column `x`. -/
def clearMatrix_column (NUM_DEVICES fuel x : Nat) (s : Machine) : Except Fault Machine :=
  match forLoop (fun i => decide ((i : Int) < (NUM_DEVICES : Int))) incU8
      (fun _ s => .ok (writeByte 0x00 (writeByte x s))) fuel 0 (SLAVE_SELECT s) with
  | .ok s' => .ok (SLAVE_DESELECT s')
  | .error e => .error e

/-- `clearMatrix`. -/
def clearMatrix (NUM_DEVICES fuel : Nat) (s : Machine) : Except Fault Machine :=
  forLoop (fun x => decide (x < 9)) incU8
    (fun x s => clearMatrix_column NUM_DEVICES fuel x s) fuel 1 s

/-- `initBuffer`. -/
def initBuffer (NUM_DEVICES fuel : Nat) (s : Machine) : Except Fault Machine :=
  forLoop (fun i => decide ((i : Int) < (NUM_DEVICES : Int) * 8)) incU8
    (fun i s => writeBuffer s i 0x00) fuel 0 s

/-- The body of the loop of `pushBuffer` (line 123): `buffer[i] = buffer[i+1]`. -/
def pushBuffer_shift (i : Nat) (s : Machine) : Except Fault Machine :=
  match readBuffer s ((i : Int) + 1) with
  | .ok v => writeBuffer s i v
  | .error e => .error e

/-- `pushBuffer`; the argument is converted to the `uint8_t` parameter `x`. -/
def pushBuffer (NUM_DEVICES fuel x : Nat) (s : Machine) : Except Fault Machine :=
  match forLoop (fun i => decide ((i : Int) < (NUM_DEVICES : Int) * 8 - 1)) incU8
      (fun i s => pushBuffer_shift i s) fuel 0 s with
  | .ok s' => writeBuffer s' ((NUM_DEVICES : Int) * 8 - 1) (x % 256)
  | .error e => .error e

/-- The body of the two outer loops of `displayBuffer` (lines 160 to 170): the
transaction for device `i` and column `j`. -/
def displayBuffer_column (NUM_DEVICES fuel i j : Nat) (s : Machine) :
    Except Fault Machine :=
  match forLoop (fun k => decide (k < i)) incU8
      (fun _ s => .ok (writeWord 0x00 0x00 s)) fuel 0 (SLAVE_SELECT s) with
  | .error e => .error e
  | .ok s1 =>
    match readBuffer s1 ((j : Int) + (i : Int) * 8 - 1) with
    | .error e => .error e
    | .ok v =>
      match forLoop (fun k => decide (k > i)) decU8
          (fun _ s => .ok (writeWord 0x00 0x00 s)) fuel
          (toU8 ((NUM_DEVICES : Int) - 1)) (writeWord j v s1) with
      | .error e => .error e
      | .ok s2 => .ok (SLAVE_DESELECT s2)

/-- `displayBuffer`. -/
def displayBuffer (NUM_DEVICES fuel : Nat) (s : Machine) : Except Fault Machine :=
  forLoop (fun i => decide ((i : Int) < (NUM_DEVICES : Int))) incU8
    (fun i s =>
      forLoop (fun j => decide (j < 9)) incU8
        (fun j s => displayBuffer_column NUM_DEVICES fuel i j s) fuel 1 s)
    fuel 0 s

/-- `pgm_read_byte(&characters[c][i])`: the table `characters` of the header is
a parameter, a byte of flash for every row and column. -/
def readGlyph (characters : Nat → Nat → Nat) (c i : Nat) : Nat :=
  characters c i % 256

/-- One scroll step: `pushBuffer(v); displayBuffer(); _delay_us(DEL);`, the
three statements that `pushCharacter` and `displayMessage` both repeat. -/
def scrollStep (NUM_DEVICES fuel v : Nat) (s : Machine) : Except Fault Machine :=
  match pushBuffer NUM_DEVICES fuel v s with
  | .error e => .error e
  | .ok s1 =>
    match displayBuffer NUM_DEVICES fuel s1 with
    | .error e => .error e
    | .ok s2 => .ok (_delay_us DEL s2)

/-- `pushCharacter`; `c` is the `uint8_t` parameter. -/
def pushCharacter (characters : Nat → Nat → Nat) (NUM_DEVICES fuel c : Nat)
    (s : Machine) : Except Fault Machine :=
  forLoop (fun i => decide (i < 5)) incU8
    (fun i s => scrollStep NUM_DEVICES fuel (readGlyph characters c i) s) fuel 0 s

/-- `pgm_read_byte_near(arrayPointer + i)` for the array `message`; a read past
the end of the array has no value in the model. -/
def readMessage (message : List Nat) (i : Nat) : Except Fault Nat :=
  if i < message.length then .ok (message.getD i 0 % 256) else .error .outOfBounds

/-- The argument of `pushCharacter` at line 144, `ch - 32` computed in `int`,
converted to the `uint8_t` parameter. -/
def glyphIndex (ch : Nat) : Nat := toU8 ((ch : Int) - 32)

/-- The body of the loop of `displayMessage` (lines 144 to 147) for the
character at offset `i`. -/
def displayMessage_character (characters : Nat → Nat → Nat) (NUM_DEVICES fuel : Nat)
    (message : List Nat) (i : Nat) (s : Machine) : Except Fault Machine :=
  match readMessage message i with
  | .error e => .error e
  | .ok ch =>
    match pushCharacter characters NUM_DEVICES fuel (glyphIndex ch) s with
    | .error e => .error e
    | .ok s1 => scrollStep NUM_DEVICES fuel 0x00 s1

/-- `displayMessage`; `arraySize` is converted to the `uint16_t` parameter. -/
def displayMessage (characters : Nat → Nat → Nat) (NUM_DEVICES fuel : Nat)
    (message : List Nat) (arraySize : Nat) (s : Machine) : Except Fault Machine :=
  forLoop (fun i => decide (i < arraySize % 65536)) incU16
    (fun i s => displayMessage_character characters NUM_DEVICES fuel message i s)
    fuel 0 s

/-- The event loop `while (1) displayMessage(...)` of `main`, observed for a
number of passes. -/
def eventLoop (characters : Nat → Nat → Nat) (NUM_DEVICES fuel : Nat)
    (message : List Nat) : Nat → Machine → Except Fault Machine
  | 0, s => .ok s
  | passes + 1, s =>
    match displayMessage characters NUM_DEVICES fuel message message.length s with
    | .error e => .error e
    | .ok s' => eventLoop characters NUM_DEVICES fuel message passes s'

/-- The initialisation part of `main`, up to the event loop. -/
def startup (NUM_DEVICES fuel : Nat) (s : Machine) : Except Fault Machine := do
  let s ← initMatrix NUM_DEVICES fuel (initSPI s)
  let s ← clearMatrix NUM_DEVICES fuel s
  initBuffer NUM_DEVICES fuel s

/-- `main`, observed until the event loop has made `passes` passes. -/
def main (characters : Nat → Nat → Nat) (NUM_DEVICES fuel : Nat)
    (message : List Nat) (passes : Nat) (s : Machine) : Except Fault Machine :=
  match startup NUM_DEVICES fuel s with
  | .error e => .error e
  | .ok s' => eventLoop characters NUM_DEVICES fuel message passes s'

/-! ## Reading a trace and describing a render -/

/-- The (address, data) pair of a no-op frame. -/
def noOp : Nat × Nat := (0, 0)

/-- The two bytes of one (address, data) pair on the bus. -/
def wordEvents (p : Nat × Nat) : List Event := [Event.byte p.1, Event.byte p.2]

/-- The events of one transaction. -/
def frame (pairs : List (Nat × Nat)) : List Event :=
  Event.select :: (pairs.flatMap wordEvents ++ [Event.deselect])

/-- Groups bytes two by two into (address, data) pairs. -/
def pairUp : List Nat → List (Nat × Nat)
  | a :: d :: rest => (a, d) :: pairUp rest
  | _ => []

/-- Reads a trace back as transactions: `select` opens one, the bytes up to
`deselect` are its pairs; the first argument holds the bytes of the open
transaction, if one is open. -/
def transactionsFrom : Option (List Nat) → List Event → List (List (Nat × Nat))
  | _, [] => []
  | _, Event.select :: es => transactionsFrom (some []) es
  | some bs, Event.deselect :: es => pairUp bs :: transactionsFrom none es
  | none, Event.deselect :: es => transactionsFrom none es
  | some bs, Event.byte b :: es => transactionsFrom (some (bs ++ [b])) es
  | none, Event.byte _ :: es => transactionsFrom none es
  | cur, Event.delay _ :: es => transactionsFrom cur es

/-- The transactions of a trace, in order, each as its list of (address, data)
pairs. -/
def transactions (tr : List Event) : List (List (Nat × Nat)) := transactionsFrom none tr

/-- The state after `t` no-op words have followed `s`. -/
def afterNoOps (s : Machine) (t : Nat) : Machine :=
  { s with trace := s.trace ++ (List.replicate t noOp).flatMap wordEvents }

/-- The pairs of the transaction for device `i`, column `j`, when the post-loop
counter starts at `k0`. -/
def columnPairs (k0 : Nat) (B : List Nat) (i j : Nat) : List (Nat × Nat) :=
  List.replicate i noOp ++ (j, B.getD (j - 1 + i * 8) 0 % 256) :: List.replicate (k0 - i) noOp

/-- The transactions for device `i`: columns 1 to 8. -/
def devicePairs (k0 : Nat) (B : List Nat) (i : Nat) : List (List (Nat × Nat)) :=
  (List.range 8).map (fun c => columnPairs k0 B i (c + 1))

/-- The transactions of one render, device by device. -/
def renderPairs (N : Nat) (B : List Nat) : List (List (Nat × Nat)) :=
  (List.range N).flatMap (fun i => devicePairs (N - 1) B i)

/-- The events of one render. -/
def renderTrace (N : Nat) (B : List Nat) : List Event :=
  (renderPairs N B).flatMap frame

/-- The buffer after the copy loop of `pushBuffer` has made `t` iterations. -/
def shifted (B : List Nat) (t : Nat) : List Nat := (B.drop 1).take t ++ B.drop t

/-- The calls `pushBuffer(v1); ...; pushBuffer(vk);` in order. -/
def pushAll (NUM_DEVICES fuel : Nat) : List Nat → Machine → Except Fault Machine
  | [], s => .ok s
  | v :: vs, s =>
    match pushBuffer NUM_DEVICES fuel v s with
    | .ok s' => pushAll NUM_DEVICES fuel vs s'
    | .error e => .error e

/-- The four configuration transactions of `initMatrix` for a chain of `N`. -/
def initPairs (N : Nat) : List (List (Nat × Nat)) :=
  [List.replicate N (0x0A, 0x07), List.replicate N (0x0B, 0x07),
   List.replicate N (0x0C, 0x01), List.replicate N (0x0F, 0x00)]

/-- The buffer after the values `vs` have been pushed into the buffer `B`. -/
def bufferAfter (B vs : List Nat) : List Nat := (B ++ vs).drop vs.length

/-- The events of the scroll steps that push the values `vs`, starting from the
buffer `B`: after each push, one render of the buffer as it then is and one
delay of `DEL`. -/
def scrollTrace (N : Nat) : List Nat → List Nat → List Event
  | _, [] => []
  | B, v :: vs =>
    renderTrace N (bufferAfter B [v]) ++ Event.delay DEL :: scrollTrace N (bufferAfter B [v]) vs

/-- The state after the scroll steps that push `vs`. -/
def afterScroll (N : Nat) (s : Machine) (vs : List Nat) : Machine :=
  ⟨bufferAfter s.buffer vs, s.trace ++ scrollTrace N s.buffer vs⟩

/-- The five columns of row `c` of the glyph table. -/
def glyphColumns (characters : Nat → Nat → Nat) (c : Nat) : List Nat :=
  (List.range 5).map (fun i => readGlyph characters c i)

/-- The values one pass over the message pushes: for each character its five
glyph columns and the spacer. -/
def glyphStream (characters : Nat → Nat → Nat) (message : List Nat) : List Nat :=
  message.flatMap (fun ch => glyphColumns characters (glyphIndex (ch % 256)) ++ [0])

/-- The scroll steps for the values `vs` in order, each step written out as in
lines 133 to 135 and 145 to 147: `pushBuffer(v); displayBuffer(); _delay_us(DEL);`. -/
def scrollAll (NUM_DEVICES fuel : Nat) : List Nat → Machine → Except Fault Machine
  | [], s => .ok s
  | v :: vs, s =>
    match pushBuffer NUM_DEVICES fuel v s with
    | .error e => .error e
    | .ok s1 =>
      match displayBuffer NUM_DEVICES fuel s1 with
      | .error e => .error e
      | .ok s2 => scrollAll NUM_DEVICES fuel vs (_delay_us DEL s2)

/-- The eight transactions of `clearMatrix` for a chain of `N`. -/
def clearPairs (N : Nat) : List (List (Nat × Nat)) :=
  (List.range 8).map (fun c => List.replicate N (c + 1, 0x00))

/-- The values pushed by a number of passes over the message, `stream` being the
values of one pass. -/
def cycles (stream : List Nat) : Nat → List Nat
  | 0 => []
  | p + 1 => stream ++ cycles stream p

/-- The buffers after each of the scroll steps that push `vs`, as the code
produces them from the state `s`. -/
def scrollStates (NUM_DEVICES fuel : Nat) : List Nat → Machine → List (List Nat)
  | [], _ => []
  | v :: vs, s =>
    match scrollStep NUM_DEVICES fuel v s with
    | .ok s' => s'.buffer :: scrollStates NUM_DEVICES fuel vs s'
    | .error _ => []

/-- The buffers after each push of `vs`, starting from the buffer `B`. -/
def trajectory : List Nat → List Nat → List (List Nat)
  | _, [] => []
  | B, v :: vs => bufferAfter B [v] :: trajectory (bufferAfter B [v]) vs

/-! ## Column positions of a render and the chain of devices -/

/-- The pair that a render transmits for the flat column position
`p = (j-1) + 8*i`: the pair at device position `i` of transaction number `p`. -/
def pairAt (emitted : List Event) (p : Nat) : Option (Nat × Nat) :=
  ((transactions emitted)[p]?).bind (fun tx => tx[p / 8]?)

/-- The chain of devices: after the register write `(a, d)` to the device in
slot `slot`, the value of register `r` of the device in slot `i`, where `R`
holds the values before. -/
def writeReg (R : Nat → Nat → Nat) (slot a d : Nat) : Nat → Nat → Nat :=
  fun i r => if i = slot ∧ r = a then d else R i r

/-- The register writes of a transaction whose first pair goes to slot `p`:
the pair at each position goes to the slot of that position, a pair with
address 0x00 writes nothing, a pair with another address writes the register
of that address. -/
def writesFrom (p : Nat) : List (Nat × Nat) → List (Nat × Nat × Nat)
  | [] => []
  | (a, d) :: rest =>
    if a = 0 then writesFrom (p + 1) rest else (p, a, d) :: writesFrom (p + 1) rest

/-- The registers of the chain after a list of writes (slot, address, data). -/
def applyWrites (R : Nat → Nat → Nat) (ws : List (Nat × Nat × Nat)) : Nat → Nat → Nat :=
  ws.foldl (fun R w => writeReg R w.1 w.2.1 w.2.2) R

/-- The registers of the chain after one transaction, applied on deselect. -/
def applyTransaction (R : Nat → Nat → Nat) (tx : List (Nat × Nat)) : Nat → Nat → Nat :=
  applyWrites R (writesFrom 0 tx)

/-- The registers of the chain after the transactions of a trace, `R` holding
the registers before. -/
def chainAfter (R : Nat → Nat → Nat) (tr : List Event) : Nat → Nat → Nat :=
  (transactions tr).foldl applyTransaction R

/-- The transactions of the scroll steps that push the values `vs`, starting
from the buffer `B`: one render after each push. -/
def scrollPairs (N : Nat) : List Nat → List Nat → List (List (Nat × Nat))
  | _, [] => []
  | B, v :: vs => renderPairs N (bufferAfter B [v]) ++ scrollPairs N (bufferAfter B [v]) vs

/-! ## Theorems -/

theorem forLoop_run (cond : Nat → Bool) (next : Nat → Nat)
    (body : Nat → Machine → Except Fault Machine) (c : Nat → Nat) (g : Nat → Machine)
    (n : Nat) (hc : ∀ t, t < n → cond (c t) = true) (hn : cond (c n) = false)
    (hnext : ∀ t, t < n → next (c t) = c (t + 1))
    (hbody : ∀ t, t < n → body (c t) (g t) = .ok (g (t + 1))) :
    ∀ (fuel m : Nat), m ≤ n → n - m < fuel →
      forLoop cond next body fuel (c m) (g m) = .ok (g n) := by
  intro fuel
  induction fuel with
  | zero => intro m _ h; omega
  | succ fuel ih =>
    intro m hm hf
    rcases Nat.eq_or_lt_of_le hm with h | h
    · subst h; simp [forLoop, hn]
    · simp only [forLoop, hc m h, hbody m h, hnext m h, if_true]
      exact ih (m + 1) h (by omega)

theorem forLoop_diverges (cond : Nat → Bool) (next : Nat → Nat)
    (body : Nat → Machine → Except Fault Machine) (P : Nat → Prop)
    (hP : ∀ c, P c → cond c = true ∧ P (next c)) :
    ∀ (fuel c : Nat) (s s' : Machine), P c → forLoop cond next body fuel c s ≠ .ok s' := by
  intro fuel
  induction fuel with
  | zero => intro c s s' _; simp [forLoop]
  | succ fuel ih =>
    intro c s s' hc
    obtain ⟨h1, h2⟩ := hP c hc
    simp only [forLoop, h1, if_true]
    cases hb : body c s with
    | error e => simp
    | ok s1 => exact ih (next c) s1 s' h2

theorem pairUp_words (ps : List (Nat × Nat)) :
    pairUp (ps.flatMap (fun p => [p.1, p.2])) = ps := by
  induction ps with
  | nil => rfl
  | cons p ps ih => simpa [pairUp] using ih

theorem transactionsFrom_words (ps : List (Nat × Nat)) :
    ∀ (bs : List Nat) (rest : List Event),
      transactionsFrom (some bs) (ps.flatMap wordEvents ++ rest)
        = transactionsFrom (some (bs ++ ps.flatMap (fun p => [p.1, p.2]))) rest := by
  induction ps with
  | nil => intro bs rest; simp
  | cons p ps ih =>
    intro bs rest
    simp only [List.flatMap_cons, wordEvents, List.cons_append, List.nil_append,
      transactionsFrom, List.append_assoc]
    have := ih (bs ++ [p.1] ++ [p.2]) rest
    simpa [List.append_assoc] using this

theorem transactionsFrom_frame (cur : Option (List Nat)) (ps : List (Nat × Nat))
    (rest : List Event) :
    transactionsFrom cur (frame ps ++ rest) = ps :: transactionsFrom none rest := by
  simp only [frame, List.cons_append, List.append_assoc, transactionsFrom]
  rw [transactionsFrom_words]
  simp [transactionsFrom, pairUp_words]

theorem transactions_frames (txs : List (List (Nat × Nat))) :
    transactions (txs.flatMap frame) = txs := by
  unfold transactions
  induction txs with
  | nil => rfl
  | cons t ts ih => rw [List.flatMap_cons, transactionsFrom_frame, ih]

theorem writeWord_afterNoOps (s : Machine) (t : Nat) :
    writeWord 0x00 0x00 (afterNoOps s t) = afterNoOps s (t + 1) := by
  simp [writeWord, writeByte, afterNoOps, List.replicate_succ', wordEvents, noOp]

theorem preNoOps_run (i fuel : Nat) (s : Machine) (hi : i ≤ 255) (hf : i < fuel) :
    forLoop (fun k => decide (k < i)) incU8 (fun _ s => .ok (writeWord 0x00 0x00 s))
      fuel 0 s = .ok (afterNoOps s i) := by
  have h := forLoop_run (fun k => decide (k < i)) incU8
    (fun _ s => .ok (writeWord 0x00 0x00 s)) (fun t => t) (afterNoOps s) i
    (by intro t ht; simpa using ht) (by simp)
    (by intro t ht; simp only [incU8]; omega)
    (by intro t _; simp [writeWord_afterNoOps]) fuel 0 (Nat.zero_le _) (by omega)
  simpa [afterNoOps] using h

theorem postNoOps_run (i k0 fuel : Nat) (s : Machine) (hk : k0 ≤ 255) (hf : k0 - i < fuel) :
    forLoop (fun k => decide (k > i)) decU8 (fun _ s => .ok (writeWord 0x00 0x00 s))
      fuel k0 s = .ok (afterNoOps s (k0 - i)) := by
  have h := forLoop_run (fun k => decide (k > i)) decU8
    (fun _ s => .ok (writeWord 0x00 0x00 s)) (fun t => k0 - t) (afterNoOps s) (k0 - i)
    (by intro t ht; simp only [decide_eq_true_eq]; omega)
    (by simp only [decide_eq_false_iff_not]; omega)
    (by intro t ht; simp only [decU8]; omega)
    (by intro t _; simp [writeWord_afterNoOps]) fuel 0 (Nat.zero_le _) (by omega)
  simpa [afterNoOps] using h

theorem displayBuffer_column_run (N fuel i j : Nat) (s : Machine)
    (hi : i ≤ 255) (hf : 256 ≤ fuel) (hj1 : 1 ≤ j) (hj : j ≤ 8)
    (hb : j + i * 8 ≤ s.buffer.length) :
    displayBuffer_column N fuel i j s
      = .ok { s with trace := s.trace ++ frame (columnPairs (toU8 ((N : Int) - 1)) s.buffer i j) } := by
  have hk : toU8 ((N : Int) - 1) ≤ 255 := by unfold toU8; omega
  unfold displayBuffer_column
  rw [preNoOps_run i fuel _ hi (by omega)]
  have hr : readBuffer (afterNoOps (SLAVE_SELECT s) i) ((j : Int) + (i : Int) * 8 - 1)
      = .ok (s.buffer.getD (j - 1 + i * 8) 0) := by
    have e : ((j : Int) + (i : Int) * 8 - 1).toNat = j - 1 + i * 8 := by omega
    simp only [readBuffer, afterNoOps, SLAVE_SELECT, e]
    rw [if_pos]
    omega
  simp only [hr]
  rw [postNoOps_run i _ fuel _ hk (by omega)]
  simp [afterNoOps, SLAVE_SELECT, SLAVE_DESELECT, writeWord, writeByte, frame, columnPairs,
    wordEvents, noOp]
  omega

theorem displayBuffer_device_run (N fuel i : Nat) (s : Machine)
    (hi : i ≤ 255) (hf : 256 ≤ fuel) (hb : 8 + i * 8 ≤ s.buffer.length) :
    forLoop (fun j => decide (j < 9)) incU8
        (fun j s => displayBuffer_column N fuel i j s) fuel 1 s
      = .ok { s with trace := s.trace
          ++ (devicePairs (toU8 ((N : Int) - 1)) s.buffer i).flatMap frame } := by
  have h := forLoop_run (fun j => decide (j < 9)) incU8
    (fun j s => displayBuffer_column N fuel i j s) (fun t => t + 1)
    (fun t => { s with trace := s.trace ++ ((List.range t).map
        (fun c => columnPairs (toU8 ((N : Int) - 1)) s.buffer i (c + 1))).flatMap frame })
    8 (by intro t ht; simp only [decide_eq_true_eq]; omega) (by simp)
    (by intro t ht; simp only [incU8]; omega)
    (by
      intro t ht
      beta_reduce
      rw [displayBuffer_column_run N fuel i (t + 1) _ hi hf (by omega) (by omega)
        (by simp only []; omega)]
      simp [List.range_succ, List.flatMap_append])
    fuel 0 (Nat.zero_le _) (by omega)
  simpa [devicePairs] using h

theorem toU8_pred (N : Nat) (h1 : 1 ≤ N) (h2 : N ≤ 256) : toU8 ((N : Int) - 1) = N - 1 := by
  unfold toU8; omega

theorem displayBuffer_run (N fuel : Nat) (s : Machine)
    (hN : N ≤ 255) (hf : 256 ≤ fuel) (hb : s.buffer.length = 8 * N) :
    displayBuffer N fuel s = .ok { s with trace := s.trace ++ renderTrace N s.buffer } := by
  have h := forLoop_run (fun i => decide ((i : Int) < (N : Int))) incU8
    (fun i s => forLoop (fun j => decide (j < 9)) incU8
        (fun j s => displayBuffer_column N fuel i j s) fuel 1 s) (fun t => t)
    (fun t => { s with trace := s.trace ++ ((List.range t).flatMap
        (fun i => devicePairs (N - 1) s.buffer i)).flatMap frame })
    N (by intro t ht; simp only [decide_eq_true_eq]; omega) (by simp)
    (by intro t ht; simp only [incU8]; omega)
    (by
      intro t ht
      beta_reduce
      rw [displayBuffer_device_run N fuel t _ (by omega) hf (by simp only []; omega),
        toU8_pred N (by omega) (by omega)]
      simp [List.range_succ, List.flatMap_append])
    fuel 0 (Nat.zero_le _) (by omega)
  simpa [displayBuffer, renderTrace, renderPairs] using h

theorem devicePairs_length (k0 : Nat) (B : List Nat) (i : Nat) :
    (devicePairs k0 B i).length = 8 := by
  simp [devicePairs]

theorem devices_length (k0 : Nat) (B : List Nat) (n : Nat) :
    ((List.range n).flatMap (fun i => devicePairs k0 B i)).length = 8 * n := by
  induction n with
  | zero => rfl
  | succ n ih =>
    rw [List.range_succ, List.flatMap_append, List.length_append, ih]
    simp [devicePairs_length]
    omega

theorem devices_getElem? (k0 : Nat) (B : List Nat) (n q : Nat) (hq : q < 8 * n) :
    ((List.range n).flatMap (fun i => devicePairs k0 B i))[q]?
      = some (columnPairs k0 B (q / 8) (q % 8 + 1)) := by
  induction n with
  | zero => omega
  | succ n ih =>
    rw [List.range_succ, List.flatMap_append]
    by_cases h : q < 8 * n
    · rw [List.getElem?_append_left (by rw [devices_length]; exact h)]
      exact ih h
    · rw [List.getElem?_append_right (by rw [devices_length]; omega), devices_length]
      have e1 : q / 8 = n := by omega
      have e2 : q % 8 = q - 8 * n := by omega
      simp only [List.flatMap_cons, List.flatMap_nil, List.append_nil, devicePairs, e1, e2]
      rw [List.getElem?_map, List.getElem?_range (by omega)]
      rfl

theorem renderPairs_length (N : Nat) (B : List Nat) : (renderPairs N B).length = 8 * N :=
  devices_length (N - 1) B N

theorem renderPairs_getElem? (N : Nat) (B : List Nat) (q : Nat) (hq : q < 8 * N) :
    (renderPairs N B)[q]? = some (columnPairs (N - 1) B (q / 8) (q % 8 + 1)) :=
  devices_getElem? (N - 1) B N q hq

theorem columnPairs_length (k0 : Nat) (B : List Nat) (i j : Nat) (h : i ≤ k0) :
    (columnPairs k0 B i j).length = k0 + 1 := by
  simp [columnPairs]; omega

theorem columnPairs_target (k0 : Nat) (B : List Nat) (i j : Nat) :
    (columnPairs k0 B i j)[i]? = some (j, B.getD (j - 1 + i * 8) 0 % 256) := by
  unfold columnPairs
  rw [List.getElem?_append_right (by simp)]
  simp

theorem columnPairs_other (k0 : Nat) (B : List Nat) (i j p : Nat) (hp : p ≤ k0)
    (hne : p ≠ i) : (columnPairs k0 B i j)[p]? = some noOp := by
  unfold columnPairs
  by_cases h : p < i
  · rw [List.getElem?_append_left (by simpa using h)]
    simp [List.getElem?_replicate, h]
  · rw [List.getElem?_append_right (by simp; omega)]
    have : p - (List.replicate i noOp).length = (p - i - 1) + 1 := by simp; omega
    rw [this, List.getElem?_cons_succ]
    simp [List.getElem?_replicate]
    omega

theorem columnPairs_inj (k0 : Nat) (B : List Nat) (i j i' j' : Nat) (hi : i ≤ k0)
    (hj : 1 ≤ j)
    (h : columnPairs k0 B i j = columnPairs k0 B i' j') : i = i' ∧ j = j' := by
  have t1 := columnPairs_target k0 B i j
  have t2 := columnPairs_target k0 B i' j'
  by_cases hne : i = i'
  · subst hne
    rw [h, t2] at t1
    simp at t1
    exact ⟨rfl, t1.1.symm⟩
  · exfalso
    rw [h, columnPairs_other k0 B i' j' i hi hne] at t1
    simp only [noOp, Option.some.injEq, Prod.mk.injEq] at t1
    omega

theorem displayBuffer_never_returns (N : Nat) (hN : 256 ≤ N) (fuel : Nat) (s s' : Machine) :
    displayBuffer N fuel s ≠ .ok s' := by
  unfold displayBuffer
  apply forLoop_diverges _ _ _ (fun c => c < 256)
  · intro c hc
    refine ⟨?_, ?_⟩
    · simp only [decide_eq_true_eq]; omega
    · simp only [incU8]; omega
  · show 0 < 256
    omega

theorem renderPairs_mem_length (N : Nat) (B : List Nat) (tx : List (Nat × Nat))
    (h : tx ∈ renderPairs N B) : tx.length = N := by
  simp only [renderPairs, devicePairs, List.mem_flatMap, List.mem_map, List.mem_range] at h
  obtain ⟨i, hi, c, _, rfl⟩ := h
  rw [columnPairs_length _ _ _ _ (by omega)]
  omega

theorem getD_mod_of_bytes (B : List Nat) (hbyte : ∀ v ∈ B, v < 256) (p : Nat)
    (hp : p < B.length) : B.getD p 0 % 256 = B.getD p 0 := by
  apply Nat.mod_eq_of_lt
  rw [List.getD_eq_getElem _ _ hp]
  exact hbyte _ (List.getElem_mem _)

theorem frame_length (pairs : List (Nat × Nat)) :
    (frame pairs).length = 2 * pairs.length + 2 := by
  have h : ∀ ps : List (Nat × Nat), (ps.flatMap wordEvents).length = 2 * ps.length := by
    intro ps
    induction ps with
    | nil => rfl
    | cons q qs ih =>
      rw [List.flatMap_cons, List.length_append, ih]
      simp [wordEvents]
      omega
  simp only [frame, List.length_cons, List.length_append, List.length_nil, h]

theorem frames_length (txs : List (List (Nat × Nat))) (n : Nat)
    (h : ∀ tx ∈ txs, tx.length = n) :
    (txs.flatMap frame).length = txs.length * (2 * n + 2) := by
  induction txs with
  | nil => simp
  | cons t ts ih =>
    rw [List.flatMap_cons, List.length_append, frame_length,
      ih (fun tx htx => h tx (List.mem_cons_of_mem _ htx)), h t (List.mem_cons_self _ _),
      List.length_cons, Nat.add_mul, Nat.one_mul, Nat.add_comm]

/-- C1 (amended to chain lengths up to 255): render addressing. For a chain of
`N ≤ 255` devices, a byte buffer `B` of length `8 * N`, a device `i < N` and a
column `j` in 1..8, `displayBuffer` returns with the buffer unchanged. The
events it emits are exactly the frames of its `8 * N` transactions, one after
the other: for each transaction a select, the address byte and the data byte of
each of its pairs, a deselect, and no other event. Transaction number
`i * 8 + (j - 1)`, and no other, is the transaction of exactly `N` pairs made of
`i` no-op pairs, then the pair `(j, B[(j-1) + i*8])`, then `N - 1 - i` no-op
pairs, so its frame has `2 * N + 2` events. -/
theorem displayBuffer_addressing (N : Nat) (B : List Nat) (tr : List Event) (fuel i j : Nat)
    (hN : N ≤ 255) (hB : B.length = 8 * N) (hbyte : ∀ v ∈ B, v < 256) (hf : 256 ≤ fuel)
    (hi : i < N) (hj1 : 1 ≤ j) (hj : j ≤ 8) :
    ∃ (emitted : List Event) (tx : List (Nat × Nat)),
      displayBuffer N fuel ⟨B, tr⟩ = .ok ⟨B, tr ++ emitted⟩ ∧
      tx = List.replicate i (0, 0) ++ (j, B.getD (j - 1 + i * 8) 0)
            :: List.replicate (N - 1 - i) (0, 0) ∧
      tx.length = N ∧
      (transactions emitted)[i * 8 + (j - 1)]? = some tx ∧
      (∀ q, (transactions emitted)[q]? = some tx → q = i * 8 + (j - 1)) ∧
      emitted = renderTrace N B ∧
      emitted = (transactions emitted).flatMap frame ∧
      (transactions emitted).length = 8 * N ∧
      (frame tx).length = 2 * N + 2 ∧
      emitted.length = 8 * N * (2 * N + 2) := by
  have hcol : columnPairs (N - 1) B i j = List.replicate i (0, 0)
      ++ (j, B.getD (j - 1 + i * 8) 0) :: List.replicate (N - 1 - i) (0, 0) := by
    simp only [columnPairs, noOp]
    rw [getD_mod_of_bytes B hbyte _ (by omega)]
  have hlen : (columnPairs (N - 1) B i j).length = N := by
    rw [columnPairs_length _ _ _ _ (by omega)]; omega
  have htr : transactions (renderTrace N B) = renderPairs N B := transactions_frames _
  refine ⟨renderTrace N B, columnPairs (N - 1) B i j,
    displayBuffer_run N fuel ⟨B, tr⟩ hN hf hB, hcol, hlen, ?_, ?_, rfl, ?_, ?_, ?_, ?_⟩
  · rw [renderTrace, transactions_frames, renderPairs_getElem? N B _ (by omega)]
    have e1 : (i * 8 + (j - 1)) / 8 = i := by omega
    have e2 : (i * 8 + (j - 1)) % 8 + 1 = j := by omega
    rw [e1, e2]
  · intro q hq
    rw [renderTrace, transactions_frames] at hq
    have hq8 : q < 8 * N := by
      have := (List.getElem?_eq_some_iff.mp hq).1
      rwa [renderPairs_length] at this
    rw [renderPairs_getElem? N B q hq8] at hq
    have := columnPairs_inj (N - 1) B (q / 8) (q % 8 + 1) i j (by omega)
      (by omega) (Option.some.inj hq)
    omega
  · rw [htr]; rfl
  · rw [htr, renderPairs_length]
  · rw [frame_length, hlen]
  · rw [renderTrace, frames_length _ N (renderPairs_mem_length N B), renderPairs_length]

/-- C1 witness: two devices, column 8 of device 1: one no-op pair, then
`(8, B[15])`. -/
theorem displayBuffer_addressing_witness :
    ∃ (emitted : List Event) (tx : List (Nat × Nat)),
      displayBuffer 2 256 ⟨[1, 2, 3, 4, 5, 6, 7, 8, 9, 10, 11, 12, 13, 14, 15, 16], []⟩
        = .ok ⟨[1, 2, 3, 4, 5, 6, 7, 8, 9, 10, 11, 12, 13, 14, 15, 16], [] ++ emitted⟩ ∧
      tx = List.replicate 1 (0, 0)
            ++ (8, [1, 2, 3, 4, 5, 6, 7, 8, 9, 10, 11, 12, 13, 14, 15, 16].getD (8 - 1 + 1 * 8) 0)
            :: List.replicate (2 - 1 - 1) (0, 0) ∧
      tx.length = 2 ∧
      (transactions emitted)[1 * 8 + (8 - 1)]? = some tx ∧
      (∀ q, (transactions emitted)[q]? = some tx → q = 1 * 8 + (8 - 1)) ∧
      emitted = renderTrace 2 [1, 2, 3, 4, 5, 6, 7, 8, 9, 10, 11, 12, 13, 14, 15, 16] ∧
      emitted = (transactions emitted).flatMap frame ∧
      (transactions emitted).length = 8 * 2 ∧
      (frame tx).length = 2 * 2 + 2 ∧
      emitted.length = 8 * 2 * (2 * 2 + 2) :=
  displayBuffer_addressing 2 [1, 2, 3, 4, 5, 6, 7, 8, 9, 10, 11, 12, 13, 14, 15, 16] [] 256 1 8
    (by decide) rfl (by decide) (by decide) (by decide) (by decide) (by decide)

/-- C1 counterexample: with `NUM_DEVICES = 256` the loop `i < NUM_DEVICES` over
a `uint8_t` never ends, so `displayBuffer` does not return; with
`NUM_DEVICES = 257` the post-loop counter starts at `(uint8_t)256 = 0`, and the
transaction for device 0, column 1 holds one pair instead of 257. -/
theorem displayBuffer_addressing_fails :
    (¬ ∃ fuel s', displayBuffer 256 fuel ⟨List.replicate 2048 0, []⟩ = .ok s') ∧
    displayBuffer_column 257 256 0 1 ⟨List.replicate 2056 0, []⟩
      = .ok ⟨List.replicate 2056 0,
          [Event.select, Event.byte 1, Event.byte 0, Event.deselect]⟩ := by
  refine ⟨?_, ?_⟩
  · rintro ⟨fuel, s', h⟩
    exact displayBuffer_never_returns 256 (by omega) fuel _ s' h
  · rw [displayBuffer_column_run 257 256 0 1 _ (by omega) (by omega) (by omega) (by omega)
      (by show 1 + 0 * 8 ≤ (List.replicate 2056 0).length
          rw [List.length_replicate]; omega)]
    rfl

/-- C4 (amended to `8 * N` transactions and chain lengths up to 255): for a
chain of `N ≤ 255` devices and a buffer of length `8 * N`, one call of
`displayBuffer` emits exactly `8 * N` select/deselect transactions (one per
device and column register), each of exactly `N` (address, data) pairs: the
events emitted are the frames of these transactions and nothing else, each
frame a select, `2 * N` bytes and a deselect, `8 * N * (2 * N + 2)` events in
all. -/
theorem displayBuffer_transaction_count (N : Nat) (B : List Nat) (tr : List Event) (fuel : Nat)
    (hN : N ≤ 255) (hB : B.length = 8 * N) (hf : 256 ≤ fuel) :
    ∃ emitted : List Event,
      displayBuffer N fuel ⟨B, tr⟩ = .ok ⟨B, tr ++ emitted⟩ ∧
      (transactions emitted).length = 8 * N ∧
      (∀ tx ∈ transactions emitted, tx.length = N ∧ (frame tx).length = 2 * N + 2) ∧
      emitted = renderTrace N B ∧
      emitted = (transactions emitted).flatMap frame ∧
      emitted.length = 8 * N * (2 * N + 2) := by
  have htr : transactions (renderTrace N B) = renderPairs N B := transactions_frames _
  refine ⟨renderTrace N B, displayBuffer_run N fuel ⟨B, tr⟩ hN hf hB, ?_, ?_, rfl, ?_, ?_⟩
  · rw [htr, renderPairs_length]
  · intro tx htx
    rw [htr] at htx
    have hl := renderPairs_mem_length N B tx htx
    exact ⟨hl, by rw [frame_length, hl]⟩
  · rw [htr]; rfl
  · rw [renderTrace, frames_length _ N (renderPairs_mem_length N B), renderPairs_length]

/-- C4 witness: the configured chain of 8 devices. -/
theorem displayBuffer_transaction_count_witness :
    ∃ emitted : List Event,
      displayBuffer 8 256 ⟨List.replicate 64 0, []⟩
        = .ok ⟨List.replicate 64 0, [] ++ emitted⟩ ∧
      (transactions emitted).length = 8 * 8 ∧
      (∀ tx ∈ transactions emitted, tx.length = 8 ∧ (frame tx).length = 2 * 8 + 2) ∧
      emitted = renderTrace 8 (List.replicate 64 0) ∧
      emitted = (transactions emitted).flatMap frame ∧
      emitted.length = 8 * 8 * (2 * 8 + 2) :=
  displayBuffer_transaction_count 8 (List.replicate 64 0) [] 256 (by decide) rfl (by decide)

/-- C4 counterexample: for the configured `NUM_DEVICES = 8` one render emits 64
transactions, not 8; and for `NUM_DEVICES = 256` the render does not return. -/
theorem displayBuffer_transaction_count_fails :
    (∃ emitted : List Event,
      displayBuffer 8 256 ⟨List.replicate 64 0, []⟩ = .ok ⟨List.replicate 64 0, emitted⟩ ∧
      (transactions emitted).length = 64) ∧
    ¬ ∃ fuel s', displayBuffer 256 fuel ⟨List.replicate 2048 0, []⟩ = .ok s' := by
  refine ⟨⟨renderTrace 8 (List.replicate 64 0), ?_, ?_⟩, ?_⟩
  · exact displayBuffer_run 8 256 ⟨List.replicate 64 0, []⟩ (by omega) (by omega) rfl
  · rw [renderTrace, transactions_frames, renderPairs_length]
  · rintro ⟨fuel, s', h⟩
    exact displayBuffer_never_returns 256 (by omega) fuel _ s' h

theorem shifted_length (B : List Nat) (t : Nat) (ht : t < B.length) :
    (shifted B t).length = B.length := by
  simp [shifted]; omega

theorem shifted_getElem? (B : List Nat) (t p : Nat) (ht : t < B.length) :
    (shifted B t)[p]? = if p < t then B[p + 1]? else B[p]? := by
  unfold shifted
  by_cases h : p < t
  · rw [List.getElem?_append_left (by simp; omega)]
    simp [h, List.getElem?_take, Nat.add_comm]
  · rw [List.getElem?_append_right (by simp; omega)]
    simp [h]
    congr 1
    have : min t (B.length - 1) = t := by omega
    omega

theorem shifted_step (B : List Nat) (t : Nat) (ht : t + 1 < B.length) :
    (shifted B t).set t (B.getD (t + 1) 0) = shifted B (t + 1) := by
  apply List.ext_getElem?
  intro p
  rw [List.getElem?_set, shifted_getElem? B t p (by omega), shifted_getElem? B (t+1) p ht,
    shifted_length B t (by omega)]
  by_cases h : t = p
  · subst h
    simp [List.getD_eq_getElem?_getD, ht]
    omega
  · simp only [h, if_false]
    by_cases h2 : p < t
    · rw [if_pos h2, if_pos (by omega)]
    · rw [if_neg h2, if_neg (by omega)]

theorem shifted_last (B : List Nat) (x : Nat) (h : 0 < B.length) :
    (shifted B (B.length - 1)).set (B.length - 1) x = B.drop 1 ++ [x] := by
  apply List.ext_getElem?
  intro p
  rw [List.getElem?_set, shifted_getElem? B _ p (by omega), shifted_length B _ (by omega)]
  by_cases h1 : B.length - 1 = p
  · subst h1
    simp [List.getElem?_append_right]
    exact List.ne_nil_of_length_pos h
  · by_cases h2 : p < B.length - 1
    · simp [h1, h2, List.getElem?_append_left, Nat.add_comm]
    · simp only [h1, h2, if_false]
      rw [List.getElem?_eq_none (by omega), List.getElem?_eq_none (by simp; omega)]

theorem pushBuffer_run (N fuel x : Nat) (s : Machine) (hN1 : 1 ≤ N) (hN : N ≤ 32)
    (hf : 256 ≤ fuel) (hb : s.buffer.length = 8 * N) :
    pushBuffer N fuel x s = .ok { s with buffer := s.buffer.drop 1 ++ [x % 256] } := by
  have h := forLoop_run (fun i => decide ((i : Int) < (N : Int) * 8 - 1)) incU8
    (fun i s => pushBuffer_shift i s) (fun t => t)
    (fun t => { s with buffer := shifted s.buffer t })
    (8 * N - 1) (by intro t ht; simp only [decide_eq_true_eq]; omega)
    (by simp only [decide_eq_false_iff_not]; omega)
    (by intro t ht; simp only [incU8]; omega)
    (by
      intro t ht
      have hl : (shifted s.buffer t).length = s.buffer.length :=
        shifted_length _ _ (by omega)
      have e1 : ((t : Int) + 1).toNat = t + 1 := by omega
      have hr : readBuffer { s with buffer := shifted s.buffer t } ((t : Int) + 1)
          = .ok (s.buffer.getD (t + 1) 0) := by
        simp only [readBuffer, hl, e1]
        rw [if_pos (by omega)]
        simp only [List.getD_eq_getElem?_getD]
        rw [shifted_getElem? _ _ _ (by omega), if_neg (by omega)]
      beta_reduce
      unfold pushBuffer_shift
      rw [hr]
      simp only [writeBuffer, hl, Int.toNat_ofNat]
      rw [if_pos (by omega), shifted_step _ _ (by omega)])
    fuel 0 (Nat.zero_le _) (by omega)
  have h0 : ({ s with buffer := shifted s.buffer 0 } : Machine) = s := by
    simp [shifted]
  beta_reduce at h
  rw [h0] at h
  unfold pushBuffer
  rw [h]
  have hl : (shifted s.buffer (8 * N - 1)).length = s.buffer.length :=
    shifted_length _ _ (by omega)
  have e1 : ((N : Int) * 8 - 1).toNat = s.buffer.length - 1 := by omega
  simp only [writeBuffer, hl, e1]
  rw [if_pos (by omega)]
  have e2 : 8 * N - 1 = s.buffer.length - 1 := by omega
  rw [e2, shifted_last _ _ (by omega)]

theorem pushBuffer_never_returns (N : Nat) (hN : 33 ≤ N) (fuel x : Nat) (s s' : Machine) :
    pushBuffer N fuel x s ≠ .ok s' := by
  unfold pushBuffer
  have := forLoop_diverges (fun i => decide ((i : Int) < (N : Int) * 8 - 1)) incU8
    (fun i s => pushBuffer_shift i s) (fun c => c < 256)
    (by
      intro c hc
      refine ⟨?_, ?_⟩
      · simp only [decide_eq_true_eq]; omega
      · simp only [incU8]; omega) fuel 0 s
  cases h : forLoop (fun i => decide ((i : Int) < (N : Int) * 8 - 1)) incU8
    (fun i s => pushBuffer_shift i s) fuel 0 s with
  | error e => intro h'; cases h'
  | ok s1 => exact absurd h (this s1 (by show 0 < 256; omega))

theorem pushAll_run (N fuel : Nat) (hN1 : 1 ≤ N) (hN : N ≤ 32) (hf : 256 ≤ fuel) :
    ∀ (vs : List Nat) (s : Machine), s.buffer.length = 8 * N →
      pushAll N fuel vs s
        = .ok { s with buffer := (s.buffer ++ vs.map (· % 256)).drop vs.length } := by
  intro vs
  induction vs with
  | nil => intro s _; simp [pushAll]
  | cons v vs ih =>
    intro s hb
    simp only [pushAll]
    rw [pushBuffer_run N fuel v s hN1 hN hf hb]
    simp only []
    rw [ih _ (by simp; omega)]
    cases hB : s.buffer with
    | nil => rw [hB] at hb; simp at hb; omega
    | cons b B' => simp

theorem map_mod_of_bytes (vs : List Nat) (h : ∀ v ∈ vs, v < 256) :
    vs.map (· % 256) = vs := by
  induction vs with
  | nil => rfl
  | cons v vs ih =>
    simp only [List.map_cons, List.cons.injEq]
    exact ⟨Nat.mod_eq_of_lt (h v (List.mem_cons_self _ _)),
      ih (fun w hw => h w (List.mem_cons_of_mem _ hw))⟩

/-- C2 (amended to chain lengths up to 32): shift invariant. For `N ≤ 32`, a
buffer `B` of length `L = 8 * N` and bytes `v1..vk` with `k ≤ L`, the calls
`pushBuffer(v1); ...; pushBuffer(vk)` all return, the buffer still has length
`L`, its last `k` entries are `v1..vk` in order and its first `L - k` entries
are the entries of `B` from index `k` onward; the trace is untouched. -/
theorem pushBuffer_shift_invariant (N fuel : Nat) (B vs : List Nat) (tr : List Event)
    (hN : N ≤ 32) (hf : 256 ≤ fuel) (hB : B.length = 8 * N)
    (hk : vs.length ≤ 8 * N) (hbyte : ∀ v ∈ vs, v < 256) :
    ∃ B' : List Nat,
      pushAll N fuel vs ⟨B, tr⟩ = .ok ⟨B', tr⟩ ∧
      B'.length = 8 * N ∧
      B'.drop (8 * N - vs.length) = vs ∧
      B'.take (8 * N - vs.length) = B.drop vs.length := by
  rcases Nat.eq_zero_or_pos N with h0 | h1
  · subst h0
    have hv : vs = [] := List.eq_nil_of_length_eq_zero (by omega)
    subst hv
    have hB0 : B = [] := List.eq_nil_of_length_eq_zero (by omega)
    subst hB0
    exact ⟨[], rfl, rfl, rfl, rfl⟩
  · refine ⟨(B ++ vs).drop vs.length, ?_, ?_, ?_, ?_⟩
    · rw [pushAll_run N fuel h1 hN hf vs ⟨B, tr⟩ hB, map_mod_of_bytes vs hbyte]
    · simp; omega
    · rw [List.drop_drop, ← hB]
      have : vs.length + (B.length - vs.length) = B.length + 0 := by omega
      rw [this, List.drop_append]
      rfl
    · rw [List.drop_append_of_le_length (by omega), List.take_append_of_le_length (by simp; omega)]
      apply List.take_of_length_le
      simp; omega

/-- C2 witness: two devices, zero buffer, the six pushes 0x3C, 0x42, 0x42, 0x42,
0x3C, 0x00. -/
theorem pushBuffer_shift_invariant_witness :
    ∃ B' : List Nat,
      pushAll 2 256 [0x3C, 0x42, 0x42, 0x42, 0x3C, 0x00] ⟨List.replicate 16 0, []⟩
        = .ok ⟨B', []⟩ ∧
      B'.length = 8 * 2 ∧
      B'.drop (8 * 2 - [0x3C, 0x42, 0x42, 0x42, 0x3C, 0x00].length)
        = [0x3C, 0x42, 0x42, 0x42, 0x3C, 0x00] ∧
      B'.take (8 * 2 - [0x3C, 0x42, 0x42, 0x42, 0x3C, 0x00].length)
        = (List.replicate 16 0).drop [0x3C, 0x42, 0x42, 0x42, 0x3C, 0x00].length :=
  pushBuffer_shift_invariant 2 256 (List.replicate 16 0) [0x3C, 0x42, 0x42, 0x42, 0x3C, 0x00] []
    (by decide) (by decide) rfl (by decide) (by decide)

/-- C2 counterexample: with `NUM_DEVICES = 33` (a buffer of 264 bytes) the loop
`i < NUM_DEVICES*8 - 1` over a `uint8_t` never ends, so a single `pushBuffer`
does not return. -/
theorem pushBuffer_shift_invariant_fails :
    ¬ ∃ fuel s', pushAll 33 fuel [0] ⟨List.replicate 264 0, []⟩ = .ok s' := by
  rintro ⟨fuel, s', h⟩
  simp only [pushAll] at h
  cases hp : pushBuffer 33 fuel 0 ⟨List.replicate 264 0, []⟩ with
  | error e => rw [hp] at h; cases h
  | ok s1 => exact pushBuffer_never_returns 33 (by omega) fuel 0 _ s1 hp

theorem zeroed_step (B : List Nat) (t : Nat) (ht : t < B.length) :
    (List.replicate t 0 ++ B.drop t).set t 0 = List.replicate (t + 1) 0 ++ B.drop (t + 1) := by
  apply List.ext_getElem?
  intro p
  rw [List.getElem?_set]
  by_cases h : t = p
  · subst h
    rw [if_pos rfl, if_pos (by simp; omega), List.getElem?_append_left (by simp)]
    simp [List.getElem?_replicate]
  · rw [if_neg h]
    by_cases h2 : p < t
    · rw [List.getElem?_append_left (by simpa using h2),
        List.getElem?_append_left (by simp; omega)]
      simp [List.getElem?_replicate, h2]
      omega
    · rw [List.getElem?_append_right (by simp; omega),
        List.getElem?_append_right (by simp; omega)]
      simp only [List.length_replicate, List.getElem?_drop]
      congr 1
      omega

theorem initBuffer_run (N fuel : Nat) (s : Machine) (hN : N ≤ 31) (hf : 256 ≤ fuel)
    (hb : s.buffer.length = 8 * N) :
    initBuffer N fuel s = .ok { s with buffer := List.replicate (8 * N) 0 } := by
  have h := forLoop_run (fun i => decide ((i : Int) < (N : Int) * 8)) incU8
    (fun i s => writeBuffer s i 0x00) (fun t => t)
    (fun t => { s with buffer := List.replicate t 0 ++ s.buffer.drop t })
    (8 * N) (by intro t ht; simp only [decide_eq_true_eq]; omega)
    (by simp only [decide_eq_false_iff_not]; omega)
    (by intro t ht; simp only [incU8]; omega)
    (by
      intro t ht
      simp only [writeBuffer, List.length_append, List.length_replicate, List.length_drop,
        Int.toNat_ofNat]
      rw [if_pos (by omega), zeroed_step _ _ (by omega)])
    fuel 0 (Nat.zero_le _) (by omega)
  have h0 : ({ s with buffer := List.replicate 0 0 ++ s.buffer.drop 0 } : Machine) = s := by
    simp
  beta_reduce at h
  rw [h0] at h
  unfold initBuffer
  rw [h]
  have : List.drop (8 * N) s.buffer = [] := List.drop_of_length_le (by omega)
  rw [this, List.append_nil]

theorem initBuffer_never_returns (N : Nat) (hN : 32 ≤ N) (fuel : Nat) (s s' : Machine) :
    initBuffer N fuel s ≠ .ok s' := by
  unfold initBuffer
  apply forLoop_diverges _ _ _ (fun c => c < 256)
  · intro c hc
    refine ⟨?_, ?_⟩
    · simp only [decide_eq_true_eq]; omega
    · simp only [incU8]; omega
  · show 0 < 256
    omega

/-- C3 (amended to chain lengths 1 to 31): sliding window. For `1 ≤ N ≤ 31`,
`initBuffer` zero-fills the buffer, and after pushing any bytes `v1..vk` the
buffer is the last `8 * N` elements of `8 * N` zeros followed by `v1..vk`; for
`k ≥ 8 * N` it is `v(k-8N+1)..vk`. -/
theorem sliding_window (N fuel : Nat) (B vs : List Nat) (tr : List Event)
    (hN1 : 1 ≤ N) (hN : N ≤ 31) (hf : 256 ≤ fuel) (hB : B.length = 8 * N)
    (hbyte : ∀ v ∈ vs, v < 256) :
    ∃ B' : List Nat,
      initBuffer N fuel ⟨B, tr⟩ = .ok ⟨List.replicate (8 * N) 0, tr⟩ ∧
      pushAll N fuel vs ⟨List.replicate (8 * N) 0, tr⟩ = .ok ⟨B', tr⟩ ∧
      B' = (List.replicate (8 * N) 0 ++ vs).drop vs.length ∧
      B'.length = 8 * N ∧
      (8 * N ≤ vs.length → B' = vs.drop (vs.length - 8 * N)) := by
  refine ⟨(List.replicate (8 * N) 0 ++ vs).drop vs.length,
    initBuffer_run N fuel ⟨B, tr⟩ hN hf hB, ?_, rfl, by simp, ?_⟩
  · rw [pushAll_run N fuel hN1 (by omega) hf vs _ (by simp), map_mod_of_bytes vs hbyte]
  · intro hk
    have e : vs.length = (List.replicate (8 * N) 0).length + (vs.length - 8 * N) := by
      simp; omega
    conv_lhs => rw [e]
    rw [List.drop_append]

/-- C3 witness: one device, ten pushes into the cleared buffer. -/
theorem sliding_window_witness :
    ∃ B' : List Nat,
      initBuffer 1 256 ⟨[1, 2, 3, 4, 5, 6, 7, 8], []⟩ = .ok ⟨List.replicate (8 * 1) 0, []⟩ ∧
      pushAll 1 256 [9, 10, 11, 12, 13, 14, 15, 16, 17, 18] ⟨List.replicate (8 * 1) 0, []⟩
        = .ok ⟨B', []⟩ ∧
      B' = (List.replicate (8 * 1) 0 ++ [9, 10, 11, 12, 13, 14, 15, 16, 17, 18]).drop
            [9, 10, 11, 12, 13, 14, 15, 16, 17, 18].length ∧
      B'.length = 8 * 1 ∧
      (8 * 1 ≤ [9, 10, 11, 12, 13, 14, 15, 16, 17, 18].length →
        B' = [9, 10, 11, 12, 13, 14, 15, 16, 17, 18].drop
          ([9, 10, 11, 12, 13, 14, 15, 16, 17, 18].length - 8 * 1)) :=
  sliding_window 1 256 [1, 2, 3, 4, 5, 6, 7, 8] [9, 10, 11, 12, 13, 14, 15, 16, 17, 18] []
    (by decide) (by decide) (by decide) rfl (by decide)

/-- C3 counterexample: with `NUM_DEVICES = 32` the loop `i < NUM_DEVICES*8` of
`initBuffer` over a `uint8_t` never ends; with `NUM_DEVICES = 0` the first push
writes `buffer[-1]`. -/
theorem sliding_window_fails :
    (¬ ∃ fuel s', initBuffer 32 fuel ⟨List.replicate 256 0, []⟩ = .ok s') ∧
    initBuffer 0 256 ⟨[], []⟩ = .ok ⟨[], []⟩ ∧
    pushAll 0 256 [1] ⟨[], []⟩ = .error Fault.outOfBounds := by
  refine ⟨?_, rfl, rfl⟩
  rintro ⟨fuel, s', h⟩
  exact initBuffer_never_returns 32 (by omega) fuel _ s' h

/-- C8: idempotent re-render. For a buffer `B` (of the `8 * N` bytes of a chain
of `N ≤ 255` devices), `displayBuffer` leaves `B` unchanged, a second call
emits the same events again, and the events emitted do not depend on what was
emitted before. -/
theorem displayBuffer_idempotent (N fuel : Nat) (B : List Nat) (tr : List Event)
    (hN : N ≤ 255) (hf : 256 ≤ fuel) (hB : B.length = 8 * N) :
    ∃ emitted : List Event,
      displayBuffer N fuel ⟨B, tr⟩ = .ok ⟨B, tr ++ emitted⟩ ∧
      displayBuffer N fuel ⟨B, tr ++ emitted⟩ = .ok ⟨B, tr ++ emitted ++ emitted⟩ ∧
      ∀ tr2 : List Event, displayBuffer N fuel ⟨B, tr2⟩ = .ok ⟨B, tr2 ++ emitted⟩ :=
  ⟨renderTrace N B, displayBuffer_run N fuel ⟨B, tr⟩ hN hf hB,
    displayBuffer_run N fuel ⟨B, tr ++ renderTrace N B⟩ hN hf hB,
    fun tr2 => displayBuffer_run N fuel ⟨B, tr2⟩ hN hf hB⟩

/-- C8 witness: the configured chain of 8 devices. -/
theorem displayBuffer_idempotent_witness :
    ∃ emitted : List Event,
      displayBuffer 8 256 ⟨List.replicate 64 0, []⟩
        = .ok ⟨List.replicate 64 0, [] ++ emitted⟩ ∧
      displayBuffer 8 256 ⟨List.replicate 64 0, [] ++ emitted⟩
        = .ok ⟨List.replicate 64 0, [] ++ emitted ++ emitted⟩ ∧
      ∀ tr2 : List Event, displayBuffer 8 256 ⟨List.replicate 64 0, tr2⟩
        = .ok ⟨List.replicate 64 0, tr2 ++ emitted⟩ :=
  displayBuffer_idempotent 8 256 (List.replicate 64 0) [] (by decide) (by decide) rfl

theorem glyphIndex_printable (c : Nat) (h1 : 32 ≤ c) (h2 : c ≤ 255) : glyphIndex c = c - 32 := by
  unfold glyphIndex toU8; omega

theorem readMessage_at (message : List Nat) (i c : Nat) (hi : i < message.length)
    (hc : message.getD i 0 = c) (h2 : c ≤ 255) : readMessage message i = .ok c := by
  unfold readMessage
  rw [if_pos hi, hc, Nat.mod_eq_of_lt (by omega)]

/-- C9: glyph boundary. The glyph-table index that `displayMessage` passes to
`pushCharacter` is 0 for character code 32 and 1 for code 33, and for codes
`c < d` between 32 and 255 it is `c - 32` and `d - 32`: strictly increasing,
and increasing by one from `c` to `c + 1`. The body of the loop of
`displayMessage`, on a character `c`, calls `pushCharacter` with `c - 32`. -/
theorem glyph_boundary (c d : Nat) (hc : 32 ≤ c) (hcd : c < d) (hd : d ≤ 255) :
    glyphIndex 32 = 0 ∧ glyphIndex 33 = 1 ∧
    glyphIndex c = c - 32 ∧ glyphIndex d = d - 32 ∧
    glyphIndex c < glyphIndex d ∧
    glyphIndex (c + 1) = glyphIndex c + 1 ∧
    ∀ (characters : Nat → Nat → Nat) (N fuel : Nat) (message : List Nat) (i : Nat)
      (s : Machine), i < message.length → message.getD i 0 = c →
      displayMessage_character characters N fuel message i s
        = (pushCharacter characters N fuel (c - 32) s).bind (scrollStep N fuel 0x00) := by
  have e32 : glyphIndex 32 = 0 := by decide
  have e33 : glyphIndex 33 = 1 := by decide
  have ec := glyphIndex_printable c hc (by omega)
  have ed := glyphIndex_printable d (by omega) hd
  have ec1 := glyphIndex_printable (c + 1) (by omega) (by omega)
  refine ⟨e32, e33, ec, ed, by omega, by omega, ?_⟩
  intro characters N fuel message i s hi hm
  unfold displayMessage_character
  rw [readMessage_at message i c hi hm (by omega)]
  simp only [ec]
  cases pushCharacter characters N fuel (c - 32) s <;> rfl

/-- C9 witness: the codes 65 and 255. -/
theorem glyph_boundary_witness :
    glyphIndex 32 = 0 ∧ glyphIndex 33 = 1 ∧
    glyphIndex 65 = 65 - 32 ∧ glyphIndex 255 = 255 - 32 ∧
    glyphIndex 65 < glyphIndex 255 ∧
    glyphIndex (65 + 1) = glyphIndex 65 + 1 ∧
    ∀ (characters : Nat → Nat → Nat) (N fuel : Nat) (message : List Nat) (i : Nat)
      (s : Machine), i < message.length → message.getD i 0 = 65 →
      displayMessage_character characters N fuel message i s
        = (pushCharacter characters N fuel (65 - 32) s).bind (scrollStep N fuel 0x00) :=
  glyph_boundary 65 255 (by decide) (by decide) (by decide)

theorem writeBytes_run (N fuel reg val : Nat) (s : Machine) (hN : N ≤ 255) (hf : 256 ≤ fuel) :
    forLoop (fun i => decide ((i : Int) < (N : Int))) incU8
        (fun _ s => .ok (writeByte val (writeByte reg s))) fuel 0 s
      = .ok { s with trace := s.trace
          ++ (List.replicate N (reg % 256, val % 256)).flatMap wordEvents } := by
  have h := forLoop_run (fun i => decide ((i : Int) < (N : Int))) incU8
    (fun _ s => .ok (writeByte val (writeByte reg s))) (fun t => t)
    (fun t => { s with trace := s.trace
        ++ (List.replicate t (reg % 256, val % 256)).flatMap wordEvents })
    N (by intro t ht; simp only [decide_eq_true_eq]; omega) (by simp)
    (by intro t ht; simp only [incU8]; omega)
    (by intro t _; simp [writeByte, List.replicate_succ', wordEvents])
    fuel 0 (Nat.zero_le _) (by omega)
  simpa using h

theorem initMatrix_pass_run (N fuel reg val : Nat) (s : Machine) (hN : N ≤ 255)
    (hf : 256 ≤ fuel) :
    initMatrix_pass N fuel reg val s
      = .ok { s with trace := s.trace ++ frame (List.replicate N (reg % 256, val % 256)) } := by
  unfold initMatrix_pass
  rw [writeBytes_run N fuel reg val _ hN hf]
  simp [SLAVE_SELECT, SLAVE_DESELECT, frame]

theorem initMatrix_run (N fuel : Nat) (s : Machine) (hN : N ≤ 255) (hf : 256 ≤ fuel) :
    initMatrix N fuel s = .ok { s with trace := s.trace ++ (initPairs N).flatMap frame } := by
  simp [initMatrix, bind, Except.bind, initMatrix_pass_run _ _ _ _ _ hN hf, initPairs]

theorem initMatrix_pass_never_returns (N : Nat) (hN : 256 ≤ N) (fuel reg val : Nat)
    (s s' : Machine) : initMatrix_pass N fuel reg val s ≠ .ok s' := by
  unfold initMatrix_pass
  have := forLoop_diverges (fun i => decide ((i : Int) < (N : Int))) incU8
    (fun _ s => .ok (writeByte val (writeByte reg s))) (fun c => c < 256)
    (by
      intro c hc
      refine ⟨?_, ?_⟩
      · simp only [decide_eq_true_eq]; omega
      · simp only [incU8]; omega) fuel 0 (SLAVE_SELECT s)
  cases h : forLoop (fun i => decide ((i : Int) < (N : Int))) incU8
    (fun _ s => .ok (writeByte val (writeByte reg s))) fuel 0 (SLAVE_SELECT s) with
  | error e => intro h2; cases h2
  | ok s1 => exact absurd h (this s1 (by show 0 < 256; omega))

theorem initMatrix_never_returns (N : Nat) (hN : 256 ≤ N) (fuel : Nat) (s s' : Machine) :
    initMatrix N fuel s ≠ .ok s' := by
  unfold initMatrix
  cases h : initMatrix_pass N fuel 0x0A 0x07 s with
  | error e => intro h2; cases h2
  | ok s1 => exact absurd h (initMatrix_pass_never_returns N hN fuel _ _ s s1)

/-- C10 (amended to chain lengths up to 255): chain initialisation. For
`N ≤ 255`, `initMatrix` emits exactly four select/deselect transactions and
nothing else: `N` copies of (0x0A, 0x07), then `N` copies of (0x0B, 0x07), then
`N` copies of (0x0C, 0x01), then `N` copies of (0x0F, 0x00); the buffer is
untouched. -/
theorem initMatrix_transactions (N fuel : Nat) (B : List Nat) (tr : List Event)
    (hN : N ≤ 255) (hf : 256 ≤ fuel) :
    ∃ emitted : List Event,
      initMatrix N fuel ⟨B, tr⟩ = .ok ⟨B, tr ++ emitted⟩ ∧
      emitted = frame (List.replicate N (0x0A, 0x07)) ++ frame (List.replicate N (0x0B, 0x07))
        ++ frame (List.replicate N (0x0C, 0x01)) ++ frame (List.replicate N (0x0F, 0x00)) ∧
      transactions emitted
        = [List.replicate N (0x0A, 0x07), List.replicate N (0x0B, 0x07),
           List.replicate N (0x0C, 0x01), List.replicate N (0x0F, 0x00)] := by
  refine ⟨(initPairs N).flatMap frame, initMatrix_run N fuel ⟨B, tr⟩ hN hf, ?_, ?_⟩
  · simp [initPairs]
  · rw [transactions_frames]; rfl

/-- C10 witness: the configured chain of 8 devices. -/
theorem initMatrix_transactions_witness :
    ∃ emitted : List Event,
      initMatrix 8 256 ⟨List.replicate 64 0, []⟩ = .ok ⟨List.replicate 64 0, [] ++ emitted⟩ ∧
      emitted = frame (List.replicate 8 (0x0A, 0x07)) ++ frame (List.replicate 8 (0x0B, 0x07))
        ++ frame (List.replicate 8 (0x0C, 0x01)) ++ frame (List.replicate 8 (0x0F, 0x00)) ∧
      transactions emitted
        = [List.replicate 8 (0x0A, 0x07), List.replicate 8 (0x0B, 0x07),
           List.replicate 8 (0x0C, 0x01), List.replicate 8 (0x0F, 0x00)] :=
  initMatrix_transactions 8 256 (List.replicate 64 0) [] (by decide) (by decide)

/-- C10 counterexample: with `NUM_DEVICES = 256` the first loop of `initMatrix`,
`i < NUM_DEVICES` over a `uint8_t`, never ends. -/
theorem initMatrix_transactions_fails :
    ¬ ∃ fuel s', initMatrix 256 fuel ⟨List.replicate 2048 0, []⟩ = .ok s' := by
  rintro ⟨fuel, s', h⟩
  exact initMatrix_never_returns 256 (by omega) fuel _ s' h

theorem bufferAfter_nil (B : List Nat) : bufferAfter B [] = B := by
  simp [bufferAfter]

theorem bufferAfter_length (B vs : List Nat) : (bufferAfter B vs).length = B.length := by
  simp [bufferAfter]

theorem bufferAfter_append (B xs ys : List Nat) :
    bufferAfter (bufferAfter B xs) ys = bufferAfter B (xs ++ ys) := by
  unfold bufferAfter
  rw [← List.drop_append_of_le_length (by simp), List.drop_drop, List.length_append,
    List.append_assoc]

theorem scrollTrace_append (N : Nat) (xs : List Nat) :
    ∀ (B ys : List Nat),
      scrollTrace N B (xs ++ ys) = scrollTrace N B xs ++ scrollTrace N (bufferAfter B xs) ys := by
  induction xs with
  | nil => intro B ys; simp [scrollTrace, bufferAfter_nil]
  | cons x xs ih =>
    intro B ys
    have e : bufferAfter (bufferAfter B [x]) xs = bufferAfter B (x :: xs) :=
      bufferAfter_append B [x] xs
    show renderTrace N (bufferAfter B [x])
        ++ Event.delay DEL :: scrollTrace N (bufferAfter B [x]) (xs ++ ys)
      = (renderTrace N (bufferAfter B [x])
        ++ Event.delay DEL :: scrollTrace N (bufferAfter B [x]) xs)
        ++ scrollTrace N (bufferAfter B (x :: xs)) ys
    rw [ih, e]
    simp

theorem afterScroll_nil (N : Nat) (s : Machine) : afterScroll N s [] = s := by
  simp [afterScroll, bufferAfter_nil, scrollTrace]

theorem afterScroll_append (N : Nat) (s : Machine) (xs ys : List Nat) :
    afterScroll N (afterScroll N s xs) ys = afterScroll N s (xs ++ ys) := by
  simp [afterScroll, bufferAfter_append, scrollTrace_append]

theorem afterScroll_length (N : Nat) (s : Machine) (vs : List Nat) :
    (afterScroll N s vs).buffer.length = s.buffer.length := by
  simp [afterScroll, bufferAfter_length]

theorem scrollStep_run (N fuel v : Nat) (s : Machine) (hN1 : 1 ≤ N) (hN : N ≤ 32)
    (hf : 256 ≤ fuel) (hb : s.buffer.length = 8 * N) :
    scrollStep N fuel v s = .ok (afterScroll N s [v % 256]) := by
  unfold scrollStep
  have e : s.buffer.drop 1 ++ [v % 256] = bufferAfter s.buffer [v % 256] := by
    unfold bufferAfter
    rw [List.drop_append_of_le_length (by simp; omega)]
    rfl
  rw [pushBuffer_run N fuel v s hN1 hN hf hb, e]
  simp only []
  rw [displayBuffer_run N fuel _ (by omega) hf (by simp only [bufferAfter_length]; omega)]
  simp [afterScroll, scrollTrace, _delay_us]

theorem scrollStep_afterScroll (N fuel v : Nat) (s : Machine) (vs : List Nat) (hN1 : 1 ≤ N)
    (hN : N ≤ 32) (hf : 256 ≤ fuel) (hb : s.buffer.length = 8 * N) :
    scrollStep N fuel v (afterScroll N s vs) = .ok (afterScroll N s (vs ++ [v % 256])) := by
  rw [scrollStep_run N fuel v _ hN1 hN hf (by rw [afterScroll_length]; exact hb),
    afterScroll_append]

theorem pushCharacter_run (characters : Nat → Nat → Nat) (N fuel c : Nat) (s : Machine)
    (hN1 : 1 ≤ N) (hN : N ≤ 32) (hf : 256 ≤ fuel) (hb : s.buffer.length = 8 * N) :
    pushCharacter characters N fuel c s = .ok (afterScroll N s (glyphColumns characters c)) := by
  have h := forLoop_run (fun i => decide (i < 5)) incU8
    (fun i s => scrollStep N fuel (readGlyph characters c i) s) (fun t => t)
    (fun t => afterScroll N s ((List.range t).map (fun i => readGlyph characters c i)))
    5 (by intro t ht; simpa using ht) (by simp)
    (by intro t ht; simp only [incU8]; omega)
    (by
      intro t _
      beta_reduce
      rw [scrollStep_afterScroll N fuel _ s _ hN1 hN hf hb]
      simp [List.range_succ, readGlyph])
    fuel 0 (Nat.zero_le _) (by omega)
  beta_reduce at h
  rw [List.range_zero, List.map_nil, afterScroll_nil] at h
  exact h

theorem displayMessage_character_run (characters : Nat → Nat → Nat) (N fuel : Nat)
    (message : List Nat) (i : Nat) (s : Machine) (hN1 : 1 ≤ N) (hN : N ≤ 32)
    (hf : 256 ≤ fuel) (hb : s.buffer.length = 8 * N) (hi : i < message.length) :
    displayMessage_character characters N fuel message i s
      = .ok (afterScroll N s
          (glyphColumns characters (glyphIndex (message.getD i 0 % 256)) ++ [0])) := by
  unfold displayMessage_character readMessage
  rw [if_pos hi]
  simp only []
  rw [pushCharacter_run characters N fuel _ s hN1 hN hf hb]
  simp only []
  rw [scrollStep_afterScroll N fuel _ s _ hN1 hN hf hb]

theorem take_succ_getD (l : List Nat) (t : Nat) (ht : t < l.length) :
    l.take (t + 1) = l.take t ++ [l.getD t 0] := by
  rw [List.take_succ, List.getD_eq_getElem?_getD, List.getElem?_eq_getElem ht]
  rfl

theorem displayMessage_run (characters : Nat → Nat → Nat) (N fuel : Nat)
    (message : List Nat) (s : Machine) (hN1 : 1 ≤ N) (hN : N ≤ 32)
    (hf : 256 ≤ fuel) (hb : s.buffer.length = 8 * N)
    (hM : message.length < 65536) (hfM : message.length < fuel) :
    displayMessage characters N fuel message message.length s
      = .ok (afterScroll N s (glyphStream characters message)) := by
  have h := forLoop_run (fun i => decide (i < message.length % 65536)) incU16
    (fun i s => displayMessage_character characters N fuel message i s) (fun t => t)
    (fun t => afterScroll N s (glyphStream characters (message.take t)))
    message.length
    (by intro t ht; simp only [decide_eq_true_eq]; omega)
    (by simp only [decide_eq_false_iff_not]; omega)
    (by intro t ht; simp only [incU16]; omega)
    (by
      intro t ht
      beta_reduce
      rw [displayMessage_character_run characters N fuel message t _ hN1 hN hf
        (by rw [afterScroll_length]; exact hb) ht, afterScroll_append, take_succ_getD _ _ ht]
      simp [glyphStream, List.flatMap_append])
    fuel 0 (Nat.zero_le _) (by omega)
  beta_reduce at h
  rw [List.take_zero, List.take_length] at h
  simpa [displayMessage, glyphStream, afterScroll_nil] using h

theorem scrollAll_cons (N fuel v : Nat) (vs : List Nat) (s s1 : Machine)
    (h : scrollStep N fuel v s = .ok s1) :
    scrollAll N fuel (v :: vs) s = scrollAll N fuel vs s1 := by
  unfold scrollStep at h
  simp only [scrollAll]
  cases hp : pushBuffer N fuel v s with
  | error e => rw [hp] at h; cases h
  | ok s2 =>
    rw [hp] at h
    simp only [] at h ⊢
    cases hd : displayBuffer N fuel s2 with
    | error e => rw [hd] at h; cases h
    | ok s3 =>
      rw [hd] at h
      simp only [] at h ⊢
      cases h
      rfl

theorem scrollAll_run (N fuel : Nat) (hN1 : 1 ≤ N) (hN : N ≤ 32) (hf : 256 ≤ fuel) :
    ∀ (vs : List Nat) (s : Machine), s.buffer.length = 8 * N →
      scrollAll N fuel vs s = .ok (afterScroll N s (vs.map (· % 256))) := by
  intro vs
  induction vs with
  | nil => intro s _; simp [scrollAll, afterScroll_nil]
  | cons v vs ih =>
    intro s hb
    rw [scrollAll_cons N fuel v vs s _ (scrollStep_run N fuel v s hN1 hN hf hb),
      ih _ (by rw [afterScroll_length]; exact hb), afterScroll_append]
    rfl

theorem glyphColumns_length (characters : Nat → Nat → Nat) (c : Nat) :
    (glyphColumns characters c).length = 5 := by
  simp [glyphColumns]

theorem glyphStream_length (characters : Nat → Nat → Nat) (message : List Nat) :
    (glyphStream characters message).length = 6 * message.length := by
  induction message with
  | nil => rfl
  | cons c cs ih =>
    simp only [glyphStream, List.flatMap_cons, List.length_append, glyphColumns_length,
      List.length_cons, List.length_nil] at ih ⊢
    omega

theorem glyphStream_bytes (characters : Nat → Nat → Nat) (message : List Nat) :
    (glyphStream characters message).map (· % 256) = glyphStream characters message := by
  apply map_mod_of_bytes
  intro v hv
  simp only [glyphStream, glyphColumns, readGlyph, List.mem_flatMap, List.mem_append,
    List.mem_map, List.mem_range, List.mem_singleton] at hv
  obtain ⟨c, _, h | h⟩ := hv
  · obtain ⟨i, _, rfl⟩ := h
    exact Nat.mod_lt _ (by omega)
  · omega

theorem glyphStream_printable (characters : Nat → Nat → Nat) (message : List Nat)
    (hch : ∀ c ∈ message, 32 ≤ c ∧ c ≤ 255) (htab : ∀ r k, characters r k < 256) :
    glyphStream characters message
      = message.flatMap (fun c => [characters (c - 32) 0, characters (c - 32) 1,
          characters (c - 32) 2, characters (c - 32) 3, characters (c - 32) 4, 0]) := by
  induction message with
  | nil => rfl
  | cons c cs ih =>
    have hc := hch c (List.mem_cons_self _ _)
    have hi : glyphIndex (c % 256) = c - 32 := by
      rw [Nat.mod_eq_of_lt (by omega)]
      exact glyphIndex_printable c hc.1 hc.2
    have ih2 := ih (fun d hd => hch d (List.mem_cons_of_mem _ hd))
    simp only [glyphStream, List.flatMap_cons] at ih2 ⊢
    rw [ih2, hi]
    simp [glyphColumns, readGlyph, List.range_succ, Nat.mod_eq_of_lt (htab _ _)]

theorem renderTrace_count_delay (N : Nat) (B : List Nat) (us : Nat) :
    (renderTrace N B).count (Event.delay us) = 0 := by
  rw [List.count_eq_zero]
  intro h
  simp only [renderTrace, frame, wordEvents, List.mem_flatMap, List.mem_cons, List.mem_append,
    List.mem_singleton] at h
  obtain ⟨tx, _, h | ⟨p, _, h⟩ | h⟩ := h
  · cases h
  · simp at h
  · simp at h

theorem scrollTrace_count_delay (N : Nat) (vs : List Nat) :
    ∀ B : List Nat, (scrollTrace N B vs).count (Event.delay DEL) = vs.length := by
  induction vs with
  | nil => intro B; rfl
  | cons v vs ih =>
    intro B
    simp only [scrollTrace, List.count_append, List.count_cons_self, renderTrace_count_delay,
      ih, List.length_cons]
    omega

/-- C5: message driver step sequence. For a message of `M` characters, `M` a
value of the `uint16_t` parameter `arraySize`, with codes in 32..255 and a
byte-valued glyph table, `displayMessage` returns and does exactly what the
`6 * M` scroll steps `pushBuffer(v); displayBuffer(); _delay_us(DEL);` do, where
the values `v` are, for each character `c` in order, `characters[c-32][0..4]`
followed by one 0x00; the trace gains one render and one delay of `DEL` per
step. -/
theorem displayMessage_steps (characters : Nat → Nat → Nat) (N fuel : Nat)
    (message B : List Nat) (tr : List Event) (hN1 : 1 ≤ N) (hN : N ≤ 32)
    (hf : 256 ≤ fuel) (hB : B.length = 8 * N)
    (hM : message.length < 65536) (hfM : message.length < fuel)
    (hch : ∀ c ∈ message, 32 ≤ c ∧ c ≤ 255) (htab : ∀ r k, characters r k < 256) :
    ∃ (stream : List Nat) (B' : List Nat) (emitted : List Event),
      stream = message.flatMap (fun c => [characters (c - 32) 0, characters (c - 32) 1,
          characters (c - 32) 2, characters (c - 32) 3, characters (c - 32) 4, 0]) ∧
      stream.length = 6 * message.length ∧
      displayMessage characters N fuel message message.length ⟨B, tr⟩
        = .ok ⟨B', tr ++ emitted⟩ ∧
      scrollAll N fuel stream ⟨B, tr⟩ = .ok ⟨B', tr ++ emitted⟩ ∧
      emitted = scrollTrace N B stream ∧
      emitted.count (Event.delay DEL) = 6 * message.length := by
  have hs := glyphStream_printable characters message hch htab
  have hl := glyphStream_length characters message
  refine ⟨glyphStream characters message, bufferAfter B (glyphStream characters message),
    scrollTrace N B (glyphStream characters message), hs, hl, ?_, ?_, rfl, ?_⟩
  · exact displayMessage_run characters N fuel message ⟨B, tr⟩ hN1 hN hf hB hM hfM
  · rw [scrollAll_run N fuel hN1 hN hf _ ⟨B, tr⟩ hB, glyphStream_bytes]
    rfl
  · rw [scrollTrace_count_delay, hl]

/-- C5 witness: the message "Hi" on the configured chain of 8 devices. -/
theorem displayMessage_steps_witness :
    ∃ (stream : List Nat) (B' : List Nat) (emitted : List Event),
      stream = [72, 105].flatMap (fun c => [(fun r k => (r + k) % 256) (c - 32) 0,
          (fun r k => (r + k) % 256) (c - 32) 1, (fun r k => (r + k) % 256) (c - 32) 2,
          (fun r k => (r + k) % 256) (c - 32) 3, (fun r k => (r + k) % 256) (c - 32) 4, 0]) ∧
      stream.length = 6 * [72, 105].length ∧
      displayMessage (fun r k => (r + k) % 256) 8 256 [72, 105] [72, 105].length
          ⟨List.replicate 64 0, []⟩
        = .ok ⟨B', [] ++ emitted⟩ ∧
      scrollAll 8 256 stream ⟨List.replicate 64 0, []⟩ = .ok ⟨B', [] ++ emitted⟩ ∧
      emitted = scrollTrace 8 (List.replicate 64 0) stream ∧
      emitted.count (Event.delay DEL) = 6 * [72, 105].length :=
  displayMessage_steps (fun r k => (r + k) % 256) 8 256 [72, 105] (List.replicate 64 0) []
    (by decide) (by decide) (by decide) rfl (by decide) (by decide) (by decide)
    (fun _ _ => Nat.mod_lt _ (by decide))

theorem bufferAfter_of_long (B vs : List Nat) (h : B.length ≤ vs.length) :
    bufferAfter B vs = vs.drop (vs.length - B.length) := by
  unfold bufferAfter
  have e : vs.length = B.length + (vs.length - B.length) := by omega
  conv_lhs => rw [e]
  rw [List.drop_append]

/-- C6 (amended to messages that fill the buffer): message cycle closure. When
the pass shifts in at least as many columns as the buffer holds,
`8 * N ≤ 6 * M`, the buffer after one `displayMessage` pass is the same for any
two starting buffers of length `8 * N`: the last `8 * N` values of the glyph
stream of the message. -/
theorem message_cycle_closure (characters : Nat → Nat → Nat) (N fuel : Nat)
    (message B1 B2 : List Nat) (tr1 tr2 : List Event) (hN1 : 1 ≤ N) (hN : N ≤ 32)
    (hf : 256 ≤ fuel) (hB1 : B1.length = 8 * N) (hB2 : B2.length = 8 * N)
    (hM : message.length < 65536) (hfM : message.length < fuel)
    (hfill : 8 * N ≤ 6 * message.length) :
    ∃ (Bf : List Nat) (tr1' tr2' : List Event),
      displayMessage characters N fuel message message.length ⟨B1, tr1⟩ = .ok ⟨Bf, tr1'⟩ ∧
      displayMessage characters N fuel message message.length ⟨B2, tr2⟩ = .ok ⟨Bf, tr2'⟩ ∧
      Bf = (glyphStream characters message).drop (6 * message.length - 8 * N) := by
  have hl := glyphStream_length characters message
  have e1 := bufferAfter_of_long B1 (glyphStream characters message) (by omega)
  have e2 := bufferAfter_of_long B2 (glyphStream characters message) (by omega)
  rw [hl, hB1] at e1
  rw [hl, hB2] at e2
  refine ⟨(glyphStream characters message).drop (6 * message.length - 8 * N),
    tr1 ++ scrollTrace N B1 (glyphStream characters message),
    tr2 ++ scrollTrace N B2 (glyphStream characters message), ?_, ?_, rfl⟩
  · rw [displayMessage_run characters N fuel message ⟨B1, tr1⟩ hN1 hN hf hB1 hM hfM, ← e1]
    rfl
  · rw [displayMessage_run characters N fuel message ⟨B2, tr2⟩ hN1 hN hf hB2 hM hfM, ← e2]
    rfl

/-- C6 witness: one device, a message of two characters. -/
theorem message_cycle_closure_witness :
    ∃ (Bf : List Nat) (tr1' tr2' : List Event),
      displayMessage (fun _ _ => 0) 1 256 [72, 105] [72, 105].length
          ⟨[0, 0, 0, 0, 0, 0, 0, 0], []⟩ = .ok ⟨Bf, tr1'⟩ ∧
      displayMessage (fun _ _ => 0) 1 256 [72, 105] [72, 105].length
          ⟨[1, 1, 1, 1, 1, 1, 1, 1], []⟩ = .ok ⟨Bf, tr2'⟩ ∧
      Bf = (glyphStream (fun _ _ => 0) [72, 105]).drop (6 * [72, 105].length - 8 * 1) :=
  message_cycle_closure (fun _ _ => 0) 1 256 [72, 105] [0, 0, 0, 0, 0, 0, 0, 0]
    [1, 1, 1, 1, 1, 1, 1, 1] [] [] (by decide) (by decide) (by decide) rfl rfl (by decide)
    (by decide) (by decide)

/-- C6 counterexample: on the configured chain of 8 devices a message of one
character shifts in 6 of 64 columns; from the all-zero and from the all-one
buffer the resulting buffers differ. -/
theorem message_cycle_closure_fails :
    ∃ s1 s2 : Machine,
      displayMessage (fun _ _ => 0) 8 256 [65] 1 ⟨List.replicate 64 0, []⟩ = .ok s1 ∧
      displayMessage (fun _ _ => 0) 8 256 [65] 1 ⟨List.replicate 64 1, []⟩ = .ok s2 ∧
      s1.buffer ≠ s2.buffer := by
  refine ⟨_, _,
    displayMessage_run (fun _ _ => 0) 8 256 [65] ⟨List.replicate 64 0, []⟩ (by decide)
      (by decide) (by decide) rfl (by decide) (by decide),
    displayMessage_run (fun _ _ => 0) 8 256 [65] ⟨List.replicate 64 1, []⟩ (by decide)
      (by decide) (by decide) rfl (by decide) (by decide), ?_⟩
  decide

theorem clearMatrix_column_run (N fuel x : Nat) (s : Machine) (hN : N ≤ 255)
    (hf : 256 ≤ fuel) (hx : x ≤ 255) :
    clearMatrix_column N fuel x s
      = .ok { s with trace := s.trace ++ frame (List.replicate N (x, 0x00)) } := by
  unfold clearMatrix_column
  rw [writeBytes_run N fuel x 0x00 _ hN hf, Nat.mod_eq_of_lt (by omega : x < 256)]
  simp [SLAVE_SELECT, SLAVE_DESELECT, frame]

theorem clearMatrix_run (N fuel : Nat) (s : Machine) (hN : N ≤ 255) (hf : 256 ≤ fuel) :
    clearMatrix N fuel s = .ok { s with trace := s.trace ++ (clearPairs N).flatMap frame } := by
  have h := forLoop_run (fun x => decide (x < 9)) incU8
    (fun x s => clearMatrix_column N fuel x s) (fun t => t + 1)
    (fun t => { s with trace := s.trace
        ++ ((List.range t).map (fun c => List.replicate N (c + 1, 0x00))).flatMap frame })
    8 (by intro t ht; simp only [decide_eq_true_eq]; omega) (by simp)
    (by intro t ht; simp only [incU8]; omega)
    (by
      intro t ht
      beta_reduce
      rw [clearMatrix_column_run N fuel (t + 1) _ hN hf (by omega)]
      simp [List.range_succ, List.flatMap_append])
    fuel 0 (Nat.zero_le _) (by omega)
  simpa [clearMatrix, clearPairs] using h

theorem startup_run (N fuel : Nat) (s : Machine) (hN : N ≤ 31) (hf : 256 ≤ fuel)
    (hb : s.buffer.length = 8 * N) :
    startup N fuel s = .ok ⟨List.replicate (8 * N) 0,
      s.trace ++ (initPairs N).flatMap frame ++ (clearPairs N).flatMap frame⟩ := by
  simp only [startup, initSPI, bind, Except.bind]
  rw [initMatrix_run N fuel s (by omega) hf]
  simp only []
  rw [clearMatrix_run N fuel _ (by omega) hf]
  simp only []
  rw [initBuffer_run N fuel _ hN hf (by simpa using hb)]

theorem eventLoop_run (characters : Nat → Nat → Nat) (N fuel : Nat) (message : List Nat)
    (hN1 : 1 ≤ N) (hN : N ≤ 32) (hf : 256 ≤ fuel)
    (hM : message.length < 65536) (hfM : message.length < fuel) :
    ∀ (p : Nat) (s : Machine), s.buffer.length = 8 * N →
      eventLoop characters N fuel message p s
        = .ok (afterScroll N s (cycles (glyphStream characters message) p)) := by
  intro p
  induction p with
  | zero => intro s _; simp [eventLoop, cycles, afterScroll_nil]
  | succ p ih =>
    intro s hb
    simp only [eventLoop]
    rw [displayMessage_run characters N fuel message s hN1 hN hf hb hM hfM]
    simp only []
    rw [ih _ (by rw [afterScroll_length]; exact hb), afterScroll_append]
    rfl

theorem main_run (characters : Nat → Nat → Nat) (N fuel : Nat) (message : List Nat)
    (p : Nat) (s : Machine) (hN1 : 1 ≤ N) (hN : N ≤ 31) (hf : 256 ≤ fuel)
    (hb : s.buffer.length = 8 * N)
    (hM : message.length < 65536) (hfM : message.length < fuel) :
    main characters N fuel message p s
      = .ok (afterScroll N ⟨List.replicate (8 * N) 0,
          s.trace ++ (initPairs N).flatMap frame ++ (clearPairs N).flatMap frame⟩
          (cycles (glyphStream characters message) p)) := by
  unfold main
  rw [startup_run N fuel s hN hf hb]
  simp only []
  rw [eventLoop_run characters N fuel message hN1 (by omega) hf hM hfM p _ (by simp)]

theorem scrollStates_run (N fuel : Nat) (hN1 : 1 ≤ N) (hN : N ≤ 32) (hf : 256 ≤ fuel) :
    ∀ (vs : List Nat) (s : Machine), s.buffer.length = 8 * N →
      scrollStates N fuel vs s = trajectory s.buffer (vs.map (· % 256)) := by
  intro vs
  induction vs with
  | nil => intro s _; rfl
  | cons v vs ih =>
    intro s hb
    simp only [scrollStates, List.map_cons, trajectory]
    rw [scrollStep_run N fuel v s hN1 hN hf hb]
    simp only []
    rw [ih _ (by rw [afterScroll_length]; exact hb)]
    rfl

theorem trajectory_length (vs : List Nat) : ∀ B : List Nat, (trajectory B vs).length = vs.length := by
  induction vs with
  | nil => intro B; rfl
  | cons v vs ih => intro B; simp [trajectory, ih]

theorem cycles_succ_last (stream : List Nat) (p : Nat) :
    cycles stream (p + 1) = cycles stream p ++ stream := by
  induction p with
  | zero => simp [cycles]
  | succ p ih =>
    show stream ++ cycles stream (p + 1) = (stream ++ cycles stream p) ++ stream
    rw [ih, List.append_assoc]

theorem bufferAfter_cycles (B stream : List Nat) (p : Nat) (h : B.length ≤ stream.length) :
    bufferAfter B (cycles stream (p + 1)) = stream.drop (stream.length - B.length) := by
  rw [cycles_succ_last, ← bufferAfter_append,
    bufferAfter_of_long _ _ (by rw [bufferAfter_length]; exact h), bufferAfter_length]

theorem cycles_add (stream : List Nat) (d n : Nat) :
    cycles stream (d + n) = cycles stream d ++ cycles stream n := by
  induction d with
  | zero => simp [cycles]
  | succ d ih =>
    rw [Nat.add_right_comm]
    show stream ++ cycles stream (d + n) = (stream ++ cycles stream d) ++ cycles stream n
    rw [ih, List.append_assoc]

theorem cycles_length (stream : List Nat) (n : Nat) :
    (cycles stream n).length = n * stream.length := by
  induction n with
  | zero => simp [cycles]
  | succ n ih =>
    show (stream ++ cycles stream n).length = (n + 1) * stream.length
    rw [List.length_append, ih, Nat.succ_mul, Nat.add_comm]

theorem bufferAfter_cycles_later (B stream : List Nat) (n m : Nat) (hnm : n ≤ m)
    (h : B.length ≤ n * stream.length) :
    bufferAfter B (cycles stream m) = bufferAfter B (cycles stream n) := by
  obtain ⟨d, rfl⟩ := Nat.exists_eq_add_of_le hnm
  have hl := cycles_length stream n
  rw [Nat.add_comm n d, cycles_add, ← bufferAfter_append,
    bufferAfter_of_long _ _ (by rw [bufferAfter_length]; omega), bufferAfter_length,
    bufferAfter_of_long _ _ (by omega)]

/-- C7 (amended to the passes after the buffer has filled): cycle trajectory
repetition. When `main` has made `n` passes that together shifted in at least
`8 * N` columns (`8 * N ≤ n * 6 * M`; one pass when `8 * N ≤ 6 * M`), then for
every `m ≥ n` pass `m + 1` starts from the same buffer, visits the same buffer
states, one per scroll step, and emits the same events as pass `n + 1`. -/
theorem pass_trajectory (characters : Nat → Nat → Nat) (N fuel : Nat)
    (message B : List Nat) (tr : List Event) (n m : Nat) (hN1 : 1 ≤ N) (hN : N ≤ 31)
    (hf : 256 ≤ fuel) (hB : B.length = 8 * N)
    (hM : message.length < 65536) (hfM : message.length < fuel)
    (hfill : 8 * N ≤ n * (6 * message.length)) (hnm : n ≤ m) :
    ∃ (sn sm : Machine) (Bf : List Nat) (emitted : List Event),
      main characters N fuel message n ⟨B, tr⟩ = .ok sn ∧
      main characters N fuel message m ⟨B, tr⟩ = .ok sm ∧
      sn.buffer = sm.buffer ∧
      scrollStates N fuel (glyphStream characters message) sm
        = scrollStates N fuel (glyphStream characters message) sn ∧
      (scrollStates N fuel (glyphStream characters message) sn).length
        = 6 * message.length ∧
      displayMessage characters N fuel message message.length sn
        = .ok ⟨Bf, sn.trace ++ emitted⟩ ∧
      displayMessage characters N fuel message message.length sm
        = .ok ⟨Bf, sm.trace ++ emitted⟩ := by
  have hl := glyphStream_length characters message
  have hbuf : bufferAfter (List.replicate (8 * N) 0) (cycles (glyphStream characters message) m)
      = bufferAfter (List.replicate (8 * N) 0) (cycles (glyphStream characters message) n) :=
    bufferAfter_cycles_later _ _ n m hnm (by rw [hl, List.length_replicate]; exact hfill)
  have hn := main_run characters N fuel message n ⟨B, tr⟩ hN1 hN hf hB hM hfM
  have hm := main_run characters N fuel message m ⟨B, tr⟩ hN1 hN hf hB hM hfM
  have hlen : ∀ p, (afterScroll N ⟨List.replicate (8 * N) 0,
      tr ++ (initPairs N).flatMap frame ++ (clearPairs N).flatMap frame⟩
      (cycles (glyphStream characters message) p)).buffer.length = 8 * N := by
    intro p; rw [afterScroll_length]; simp
  have hsb : (afterScroll N ⟨List.replicate (8 * N) 0,
      tr ++ (initPairs N).flatMap frame ++ (clearPairs N).flatMap frame⟩
      (cycles (glyphStream characters message) m)).buffer
      = (afterScroll N ⟨List.replicate (8 * N) 0,
      tr ++ (initPairs N).flatMap frame ++ (clearPairs N).flatMap frame⟩
      (cycles (glyphStream characters message) n)).buffer := hbuf
  refine ⟨_, _,
    bufferAfter (bufferAfter (List.replicate (8 * N) 0)
      (cycles (glyphStream characters message) n)) (glyphStream characters message),
    scrollTrace N (bufferAfter (List.replicate (8 * N) 0)
      (cycles (glyphStream characters message) n)) (glyphStream characters message),
    hn, hm, hsb.symm, ?_, ?_, ?_, ?_⟩
  · rw [scrollStates_run N fuel hN1 (by omega) hf _ _ (hlen m),
      scrollStates_run N fuel hN1 (by omega) hf _ _ (hlen n), hsb]
  · rw [scrollStates_run N fuel hN1 (by omega) hf _ _ (hlen n), trajectory_length,
      List.length_map, hl]
  · exact displayMessage_run characters N fuel message _ hN1 (by omega) hf (hlen n) hM hfM
  · rw [displayMessage_run characters N fuel message _ hN1 (by omega) hf (hlen m) hM hfM]
    simp only [afterScroll, hbuf]

/-- C7 witness: one device, a message of two characters; the passes after one
and after three passes. -/
theorem pass_trajectory_witness :
    ∃ (sn sm : Machine) (Bf : List Nat) (emitted : List Event),
      main (fun _ _ => 1) 1 256 [33, 33] 1 ⟨[0, 0, 0, 0, 0, 0, 0, 0], []⟩ = .ok sn ∧
      main (fun _ _ => 1) 1 256 [33, 33] 3 ⟨[0, 0, 0, 0, 0, 0, 0, 0], []⟩ = .ok sm ∧
      sn.buffer = sm.buffer ∧
      scrollStates 1 256 (glyphStream (fun _ _ => 1) [33, 33]) sm
        = scrollStates 1 256 (glyphStream (fun _ _ => 1) [33, 33]) sn ∧
      (scrollStates 1 256 (glyphStream (fun _ _ => 1) [33, 33]) sn).length
        = 6 * [33, 33].length ∧
      displayMessage (fun _ _ => 1) 1 256 [33, 33] [33, 33].length sn
        = .ok ⟨Bf, sn.trace ++ emitted⟩ ∧
      displayMessage (fun _ _ => 1) 1 256 [33, 33] [33, 33].length sm
        = .ok ⟨Bf, sm.trace ++ emitted⟩ :=
  pass_trajectory (fun _ _ => 1) 1 256 [33, 33] [0, 0, 0, 0, 0, 0, 0, 0] [] 1 3
    (by decide) (by decide) (by decide) rfl (by decide) (by decide) (by decide) (by decide)

/-- C7 counterexample: one device, the message "!!" and a glyph table of ones.
The buffer states of the second pass differ from those of the first pass, which
starts from the zero buffer. -/
theorem pass_trajectory_fails :
    ∃ s1 s2 : Machine,
      main (fun _ _ => 1) 1 256 [33, 33] 0 ⟨[0, 0, 0, 0, 0, 0, 0, 0], []⟩ = .ok s1 ∧
      main (fun _ _ => 1) 1 256 [33, 33] 1 ⟨[0, 0, 0, 0, 0, 0, 0, 0], []⟩ = .ok s2 ∧
      scrollStates 1 256 (glyphStream (fun _ _ => 1) [33, 33]) s2
        ≠ scrollStates 1 256 (glyphStream (fun _ _ => 1) [33, 33]) s1 := by
  refine ⟨_, _,
    main_run (fun _ _ => 1) 1 256 [33, 33] 0 ⟨[0, 0, 0, 0, 0, 0, 0, 0], []⟩ (by decide)
      (by decide) (by decide) rfl (by decide) (by decide),
    main_run (fun _ _ => 1) 1 256 [33, 33] 1 ⟨[0, 0, 0, 0, 0, 0, 0, 0], []⟩ (by decide)
      (by decide) (by decide) rfl (by decide) (by decide), ?_⟩
  rw [scrollStates_run 1 256 (by decide) (by decide) (by decide) _ _ (by rw [afterScroll_length]; rfl),
    scrollStates_run 1 256 (by decide) (by decide) (by decide) _ _ (by rw [afterScroll_length]; rfl)]
  decide

theorem forLoop_first_fails (cond : Nat → Bool) (next : Nat → Nat)
    (body : Nat → Machine → Except Fault Machine) (c : Nat) (s : Machine)
    (hc : cond c = true) (hb : ∀ s1, body c s ≠ .ok s1) :
    ∀ (fuel : Nat) (s' : Machine), forLoop cond next body fuel c s ≠ .ok s' := by
  intro fuel s'
  cases fuel with
  | zero => simp [forLoop]
  | succ fuel =>
    simp only [forLoop, hc, if_true]
    cases h : body c s with
    | error e => intro h2; cases h2
    | ok s1 => exact absurd h (hb s1)

theorem clearMatrix_column_never_returns (N : Nat) (hN : 256 ≤ N) (fuel x : Nat)
    (s s' : Machine) : clearMatrix_column N fuel x s ≠ .ok s' := by
  unfold clearMatrix_column
  have := forLoop_diverges (fun i => decide ((i : Int) < (N : Int))) incU8
    (fun _ s => .ok (writeByte 0x00 (writeByte x s))) (fun c => c < 256)
    (by
      intro c hc
      refine ⟨?_, ?_⟩
      · simp only [decide_eq_true_eq]; omega
      · simp only [incU8]; omega) fuel 0 (SLAVE_SELECT s)
  cases h : forLoop (fun i => decide ((i : Int) < (N : Int))) incU8
    (fun _ s => .ok (writeByte 0x00 (writeByte x s))) fuel 0 (SLAVE_SELECT s) with
  | error e => intro h2; cases h2
  | ok s1 => exact absurd h (this s1 (by show 0 < 256; omega))

theorem clearMatrix_never_returns (N : Nat) (hN : 256 ≤ N) (fuel : Nat) (s s' : Machine) :
    clearMatrix N fuel s ≠ .ok s' := by
  unfold clearMatrix
  apply forLoop_first_fails
  · rfl
  · intro s1
    exact clearMatrix_column_never_returns N hN fuel 1 s s1

/-- C11 (amended to chain lengths up to 255): chain clearing. For `N ≤ 255`,
`clearMatrix` emits exactly 8 select/deselect transactions and nothing else,
the x-th (x = 1..8, in increasing order) made of exactly `N` copies of the pair
`(x, 0x00)`: for every column register `x` and every device position `p < N`
the pair at position `p` of transaction `x` is `(x, 0x00)`. The buffer is
untouched. -/
theorem clearMatrix_transactions (N fuel : Nat) (B : List Nat) (tr : List Event)
    (hN : N ≤ 255) (hf : 256 ≤ fuel) :
    ∃ emitted : List Event,
      clearMatrix N fuel ⟨B, tr⟩ = .ok ⟨B, tr ++ emitted⟩ ∧
      emitted = frame (List.replicate N (1, 0)) ++ frame (List.replicate N (2, 0))
        ++ frame (List.replicate N (3, 0)) ++ frame (List.replicate N (4, 0))
        ++ frame (List.replicate N (5, 0)) ++ frame (List.replicate N (6, 0))
        ++ frame (List.replicate N (7, 0)) ++ frame (List.replicate N (8, 0)) ∧
      transactions emitted
        = [List.replicate N (1, 0), List.replicate N (2, 0), List.replicate N (3, 0),
           List.replicate N (4, 0), List.replicate N (5, 0), List.replicate N (6, 0),
           List.replicate N (7, 0), List.replicate N (8, 0)] ∧
      ∀ x p, 1 ≤ x → x ≤ 8 → p < N →
        ∃ tx, (transactions emitted)[x - 1]? = some tx ∧ tx.length = N ∧
          tx[p]? = some (x, 0) := by
  have hcp : clearPairs N
      = [List.replicate N (1, 0), List.replicate N (2, 0), List.replicate N (3, 0),
         List.replicate N (4, 0), List.replicate N (5, 0), List.replicate N (6, 0),
         List.replicate N (7, 0), List.replicate N (8, 0)] := by
    simp [clearPairs, List.range_succ]
  have ht : transactions ((clearPairs N).flatMap frame) = clearPairs N :=
    transactions_frames _
  refine ⟨(clearPairs N).flatMap frame, clearMatrix_run N fuel ⟨B, tr⟩ hN hf, ?_, ?_, ?_⟩
  · rw [hcp]; simp
  · rw [ht, hcp]
  · intro x p hx1 hx8 hp
    rw [ht]
    refine ⟨List.replicate N (x, 0), ?_, by simp, ?_⟩
    · simp only [clearPairs]
      rw [List.getElem?_map, List.getElem?_range (by omega)]
      simp
      omega
    · simp [List.getElem?_replicate, hp]

/-- C11 witness: the configured chain of 8 devices. -/
theorem clearMatrix_transactions_witness :
    ∃ emitted : List Event,
      clearMatrix 8 256 ⟨List.replicate 64 0, []⟩ = .ok ⟨List.replicate 64 0, [] ++ emitted⟩ ∧
      emitted = frame (List.replicate 8 (1, 0)) ++ frame (List.replicate 8 (2, 0))
        ++ frame (List.replicate 8 (3, 0)) ++ frame (List.replicate 8 (4, 0))
        ++ frame (List.replicate 8 (5, 0)) ++ frame (List.replicate 8 (6, 0))
        ++ frame (List.replicate 8 (7, 0)) ++ frame (List.replicate 8 (8, 0)) ∧
      transactions emitted
        = [List.replicate 8 (1, 0), List.replicate 8 (2, 0), List.replicate 8 (3, 0),
           List.replicate 8 (4, 0), List.replicate 8 (5, 0), List.replicate 8 (6, 0),
           List.replicate 8 (7, 0), List.replicate 8 (8, 0)] ∧
      ∀ x p, 1 ≤ x → x ≤ 8 → p < 8 →
        ∃ tx, (transactions emitted)[x - 1]? = some tx ∧ tx.length = 8 ∧
          tx[p]? = some (x, 0) :=
  clearMatrix_transactions 8 256 (List.replicate 64 0) [] (by decide) (by decide)

/-- C11 counterexample: with `NUM_DEVICES = 256` the inner loop of `clearMatrix`,
`i < NUM_DEVICES` over a `uint8_t`, never ends. -/
theorem clearMatrix_transactions_fails :
    ¬ ∃ fuel s', clearMatrix 256 fuel ⟨List.replicate 2048 0, []⟩ = .ok s' := by
  rintro ⟨fuel, s', h⟩
  exact clearMatrix_never_returns 256 (by omega) fuel _ s' h

/-- C13: zero-filled start. For the configured `N = 8` and every `N` with
`N * 8 ≤ 255`, `initBuffer` returns, every one of the `N * 8` buffer bytes is
then 0x00 whatever the buffer held before, the length of the buffer is
unchanged and nothing is sent. -/
theorem initBuffer_zero_fill (N fuel : Nat) (B : List Nat) (tr : List Event)
    (hN : N * 8 ≤ 255) (hf : 256 ≤ fuel) (hB : B.length = N * 8) :
    ∃ B' : List Nat,
      initBuffer N fuel ⟨B, tr⟩ = .ok ⟨B', tr⟩ ∧
      B'.length = B.length ∧
      (∀ p, p < N * 8 → B'[p]? = some 0) ∧
      B' = List.replicate (N * 8) 0 := by
  refine ⟨List.replicate (N * 8) 0, ?_, by simp [hB], ?_, rfl⟩
  · rw [initBuffer_run N fuel ⟨B, tr⟩ (by omega) hf (by simpa [Nat.mul_comm] using hB),
      Nat.mul_comm]
  · intro p hp
    simp [List.getElem?_replicate, hp]

/-- C13 witness: the configured chain of 8 devices, a buffer of 64 bytes 0xFF. -/
theorem initBuffer_zero_fill_witness :
    ∃ B' : List Nat,
      initBuffer 8 256 ⟨List.replicate 64 255, []⟩ = .ok ⟨B', []⟩ ∧
      B'.length = (List.replicate 64 255).length ∧
      (∀ p, p < 8 * 8 → B'[p]? = some 0) ∧
      B' = List.replicate (8 * 8) 0 :=
  initBuffer_zero_fill 8 256 (List.replicate 64 255) [] (by decide) (by decide) rfl

/-- C18: out-of-range characters wrap. For a character code `c < 32` the
glyph-table row index that `displayMessage` passes to `pushCharacter` is
`(c - 32) mod 256 = c + 224`, between 224 and 255: the body of the loop of
`displayMessage`, on a character `c`, calls `pushCharacter` with `c + 224`. -/
theorem glyph_index_wraps (c : Nat) (hc : c < 32) :
    glyphIndex c = c + 224 ∧
    (glyphIndex c : Int) = ((c : Int) - 32) % 256 ∧
    224 ≤ glyphIndex c ∧ glyphIndex c ≤ 255 ∧
    ∀ (characters : Nat → Nat → Nat) (N fuel : Nat) (message : List Nat) (i : Nat)
      (s : Machine), i < message.length → message.getD i 0 = c →
      displayMessage_character characters N fuel message i s
        = (pushCharacter characters N fuel (c + 224) s).bind (scrollStep N fuel 0x00) := by
  have e : glyphIndex c = c + 224 := by unfold glyphIndex toU8; omega
  refine ⟨e, by rw [e]; omega, by omega, by omega, ?_⟩
  intro characters N fuel message i s hi hm
  unfold displayMessage_character
  rw [readMessage_at message i c hi hm (by omega)]
  simp only [e]
  cases pushCharacter characters N fuel (c + 224) s <;> rfl

/-- C18 witness: the NUL byte. -/
theorem glyph_index_wraps_witness :
    glyphIndex 0 = 0 + 224 ∧
    (glyphIndex 0 : Int) = ((0 : Nat) - 32 : Int) % 256 ∧
    224 ≤ glyphIndex 0 ∧ glyphIndex 0 ≤ 255 ∧
    ∀ (characters : Nat → Nat → Nat) (N fuel : Nat) (message : List Nat) (i : Nat)
      (s : Machine), i < message.length → message.getD i 0 = 0 →
      displayMessage_character characters N fuel message i s
        = (pushCharacter characters N fuel (0 + 224) s).bind (scrollStep N fuel 0x00) :=
  glyph_index_wraps 0 (by decide)

theorem forLoop_no_bounds_fault (cond : Nat → Bool) (next : Nat → Nat)
    (body : Nat → Machine → Except Fault Machine) (P : Nat → Prop) (Inv : Machine → Prop)
    (hP : ∀ c, P c → cond c = true → P (next c))
    (hbody : ∀ c s, P c → cond c = true → Inv s →
      body c s ≠ .error .outOfBounds ∧ ∀ s', body c s = .ok s' → Inv s') :
    ∀ (fuel c : Nat) (s : Machine), P c → Inv s →
      forLoop cond next body fuel c s ≠ .error .outOfBounds ∧
      ∀ s', forLoop cond next body fuel c s = .ok s' → Inv s' := by
  intro fuel
  induction fuel with
  | zero =>
    intro c s _ _
    simp [forLoop]
  | succ fuel ih =>
    intro c s hc hs
    by_cases h : cond c = true
    · obtain ⟨hb1, hb2⟩ := hbody c s hc h hs
      simp only [forLoop, h, if_true]
      cases hb : body c s with
      | error e =>
        rw [hb] at hb1
        refine ⟨hb1, ?_⟩
        intro s' h2; cases h2
      | ok s1 => exact ih (next c) s1 (hP c hc h) (hb2 s1 hb)
    · simp only [forLoop, h]
      refine ⟨(by intro h2; cases h2), ?_⟩
      intro s' h2
      cases h2
      exact hs

theorem noOps_no_bounds_fault (cond : Nat → Bool) (next : Nat → Nat) (L fuel c : Nat)
    (s : Machine) (hs : s.buffer.length = L) :
    forLoop cond next (fun _ s => .ok (writeWord 0x00 0x00 s)) fuel c s ≠ .error .outOfBounds ∧
    ∀ s', forLoop cond next (fun _ s => .ok (writeWord 0x00 0x00 s)) fuel c s = .ok s' →
      s'.buffer.length = L := by
  apply forLoop_no_bounds_fault cond next _ (fun _ => True) (fun s => s.buffer.length = L)
    (fun _ _ _ => trivial) _ fuel c s trivial hs
  intro c s _ _ hs
  refine ⟨(by intro h; cases h), ?_⟩
  intro s' h
  cases h
  exact hs

theorem readBuffer_in_range (s : Machine) (idx : Int) (h0 : 0 ≤ idx)
    (h1 : idx < s.buffer.length) : readBuffer s idx = .ok (s.buffer.getD idx.toNat 0) := by
  unfold readBuffer
  rw [if_pos ⟨h0, h1⟩]

theorem writeBuffer_in_range (s : Machine) (idx : Int) (v : Nat) (h0 : 0 ≤ idx)
    (h1 : idx < s.buffer.length) :
    writeBuffer s idx v = .ok { s with buffer := s.buffer.set idx.toNat v } := by
  unfold writeBuffer
  rw [if_pos ⟨h0, h1⟩]

theorem pushBuffer_shift_no_bounds_fault (N c : Nat) (s : Machine)
    (hc : (c : Int) < (N : Int) * 8 - 1) (hs : s.buffer.length = 8 * N) :
    pushBuffer_shift c s ≠ .error .outOfBounds ∧
    ∀ s', pushBuffer_shift c s = .ok s' → s'.buffer.length = 8 * N := by
  unfold pushBuffer_shift
  rw [readBuffer_in_range s _ (by omega) (by omega)]
  simp only []
  rw [writeBuffer_in_range s _ _ (by omega) (by omega)]
  refine ⟨(by intro h; cases h), ?_⟩
  intro s' h
  cases h
  simpa using hs

theorem pushBuffer_no_bounds_fault (N fuel x : Nat) (s : Machine) (hN1 : 1 ≤ N)
    (hs : s.buffer.length = 8 * N) : pushBuffer N fuel x s ≠ .error .outOfBounds := by
  have h := forLoop_no_bounds_fault (fun i => decide ((i : Int) < (N : Int) * 8 - 1)) incU8
    (fun i s => pushBuffer_shift i s) (fun _ => True) (fun s => s.buffer.length = 8 * N)
    (fun _ _ _ => trivial)
    (by
      intro c s _ hc hs
      exact pushBuffer_shift_no_bounds_fault N c s (by simpa using hc) hs)
    fuel 0 s trivial hs
  unfold pushBuffer
  cases hl : forLoop (fun i => decide ((i : Int) < (N : Int) * 8 - 1)) incU8
    (fun i s => pushBuffer_shift i s) fuel 0 s with
  | error e =>
    rw [hl] at h
    exact h.1
  | ok s1 =>
    have hlen := h.2 s1 hl
    simp only []
    rw [writeBuffer_in_range s1 _ _ (by omega) (by omega)]
    intro h2; cases h2

theorem displayBuffer_column_no_bounds_fault (N fuel i j : Nat) (s : Machine)
    (hi : i < N) (hj1 : 1 ≤ j) (hj : j ≤ 8) (hs : s.buffer.length = 8 * N) :
    displayBuffer_column N fuel i j s ≠ .error .outOfBounds ∧
    ∀ s', displayBuffer_column N fuel i j s = .ok s' → s'.buffer.length = 8 * N := by
  unfold displayBuffer_column
  have h1 := noOps_no_bounds_fault (fun k => decide (k < i)) incU8 (8 * N) fuel 0
    (SLAVE_SELECT s) hs
  cases hl : forLoop (fun k => decide (k < i)) incU8
    (fun _ s => .ok (writeWord 0x00 0x00 s)) fuel 0 (SLAVE_SELECT s) with
  | error e =>
    rw [hl] at h1
    exact ⟨h1.1, by intro s' h; cases h⟩
  | ok s1 =>
    have hlen := h1.2 s1 hl
    simp only []
    rw [readBuffer_in_range s1 _ (by omega) (by omega)]
    simp only []
    have h2 := noOps_no_bounds_fault (fun k => decide (k > i)) decU8 (8 * N) fuel
      (toU8 ((N : Int) - 1))
      (writeWord j (s1.buffer.getD ((j : Int) + (i : Int) * 8 - 1).toNat 0) s1) hlen
    cases hl2 : forLoop (fun k => decide (k > i)) decU8
      (fun _ s => .ok (writeWord 0x00 0x00 s)) fuel (toU8 ((N : Int) - 1))
      (writeWord j (s1.buffer.getD ((j : Int) + (i : Int) * 8 - 1).toNat 0) s1) with
    | error e =>
      rw [hl2] at h2
      exact ⟨h2.1, by intro s' h; cases h⟩
    | ok s2 =>
      have hlen2 := h2.2 s2 hl2
      refine ⟨(by intro h; cases h), ?_⟩
      intro s' h
      cases h
      exact hlen2

theorem displayBuffer_no_bounds_fault (N fuel : Nat) (s : Machine)
    (hs : s.buffer.length = 8 * N) : displayBuffer N fuel s ≠ .error .outOfBounds := by
  unfold displayBuffer
  refine (forLoop_no_bounds_fault (fun i => decide ((i : Int) < (N : Int))) incU8 _
    (fun _ => True) (fun s => s.buffer.length = 8 * N) (fun _ _ _ => trivial) ?_
    fuel 0 s trivial hs).1
  intro i s _ hi hs
  have hi2 : i < N := by
    have : (i : Int) < (N : Int) := by simpa using hi
    omega
  apply forLoop_no_bounds_fault (fun j => decide (j < 9)) incU8 _
    (fun j => 1 ≤ j) (fun s => s.buffer.length = 8 * N) _ _ fuel 1 s (Nat.le_refl 1) hs
  · intro c hc h9
    have : c < 9 := by simpa using h9
    simp only [incU8]
    omega
  · intro j s hj1 hj hs
    exact displayBuffer_column_no_bounds_fault N fuel i j s hi2 hj1
      (by have : j < 9 := by simpa using hj
          omega) hs

/-- C16: buffer accesses stay in bounds. For `1 ≤ N ≤ 31` and a buffer of
`N * 8` bytes, `pushBuffer` and `displayBuffer` never report an access outside
the array, whatever the fuel, and return with fuel 256; every index they use is
in range: `buffer[i]` and `buffer[i+1]` for every `i` that passes the loop test
`i < N*8 - 1`, `buffer[N*8 - 1]`, and `buffer[j + i*8 - 1]` for `i < N` and `j`
in 1..8. -/
theorem buffer_accesses_in_bounds (N fuel x : Nat) (B : List Nat) (tr : List Event)
    (hN1 : 1 ≤ N) (hN : N ≤ 31) (hB : B.length = N * 8) :
    pushBuffer N fuel x ⟨B, tr⟩ ≠ .error .outOfBounds ∧
    displayBuffer N fuel ⟨B, tr⟩ ≠ .error .outOfBounds ∧
    (256 ≤ fuel → (∃ s', pushBuffer N fuel x ⟨B, tr⟩ = .ok s') ∧
      ∃ s', displayBuffer N fuel ⟨B, tr⟩ = .ok s') ∧
    (∀ i : Nat, (i : Int) < (N : Int) * 8 - 1 →
      (0 ≤ (i : Int) ∧ (i : Int) < (N : Int) * 8) ∧
      (0 ≤ (i : Int) + 1 ∧ (i : Int) + 1 < (N : Int) * 8) ∧
      (∃ v, readBuffer ⟨B, tr⟩ ((i : Int) + 1) = .ok v) ∧
      ∀ v, ∃ s', writeBuffer ⟨B, tr⟩ (i : Int) v = .ok s') ∧
    (0 ≤ (N : Int) * 8 - 1 ∧ (N : Int) * 8 - 1 < (N : Int) * 8 ∧
      ∃ s', writeBuffer ⟨B, tr⟩ ((N : Int) * 8 - 1) x = .ok s') ∧
    ∀ i j : Nat, i < N → 1 ≤ j → j ≤ 8 →
      0 ≤ (j : Int) + (i : Int) * 8 - 1 ∧ (j : Int) + (i : Int) * 8 - 1 < (N : Int) * 8 ∧
      ∃ v, readBuffer ⟨B, tr⟩ ((j : Int) + (i : Int) * 8 - 1) = .ok v := by
  have hb : (⟨B, tr⟩ : Machine).buffer.length = 8 * N := by
    show B.length = 8 * N
    omega
  refine ⟨pushBuffer_no_bounds_fault N fuel x _ hN1 hb, displayBuffer_no_bounds_fault N fuel _ hb,
    ?_, ?_, ?_, ?_⟩
  · intro hf
    exact ⟨⟨_, pushBuffer_run N fuel x _ hN1 (by omega) hf hb⟩,
      ⟨_, displayBuffer_run N fuel _ (by omega) hf hb⟩⟩
  · intro i hi
    refine ⟨by omega, by omega, ⟨_, readBuffer_in_range _ _ (by omega) ?_⟩, ?_⟩
    · show (i : Int) + 1 < (B.length : Int)
      omega
    · intro v
      exact ⟨_, writeBuffer_in_range _ _ v (by omega) (by show (i : Int) < (B.length : Int); omega)⟩
  · exact ⟨by omega, by omega,
      ⟨_, writeBuffer_in_range _ _ x (by omega)
        (by show (N : Int) * 8 - 1 < (B.length : Int); omega)⟩⟩
  · intro i j hi hj1 hj
    exact ⟨by omega, by omega,
      ⟨_, readBuffer_in_range _ _ (by omega)
        (by show (j : Int) + (i : Int) * 8 - 1 < (B.length : Int); omega)⟩⟩

/-- C16 witness: the configured chain of 8 devices. -/
theorem buffer_accesses_in_bounds_witness :
    pushBuffer 8 256 0x3C ⟨List.replicate 64 0, []⟩ ≠ .error .outOfBounds ∧
    displayBuffer 8 256 ⟨List.replicate 64 0, []⟩ ≠ .error .outOfBounds ∧
    (256 ≤ 256 → (∃ s', pushBuffer 8 256 0x3C ⟨List.replicate 64 0, []⟩ = .ok s') ∧
      ∃ s', displayBuffer 8 256 ⟨List.replicate 64 0, []⟩ = .ok s') ∧
    (∀ i : Nat, (i : Int) < ((8 : Nat) : Int) * 8 - 1 →
      (0 ≤ (i : Int) ∧ (i : Int) < ((8 : Nat) : Int) * 8) ∧
      (0 ≤ (i : Int) + 1 ∧ (i : Int) + 1 < ((8 : Nat) : Int) * 8) ∧
      (∃ v, readBuffer ⟨List.replicate 64 0, []⟩ ((i : Int) + 1) = .ok v) ∧
      ∀ v, ∃ s', writeBuffer ⟨List.replicate 64 0, []⟩ (i : Int) v = .ok s') ∧
    (0 ≤ ((8 : Nat) : Int) * 8 - 1 ∧ ((8 : Nat) : Int) * 8 - 1 < ((8 : Nat) : Int) * 8 ∧
      ∃ s', writeBuffer ⟨List.replicate 64 0, []⟩ (((8 : Nat) : Int) * 8 - 1) 0x3C = .ok s') ∧
    ∀ i j : Nat, i < 8 → 1 ≤ j → j ≤ 8 →
      0 ≤ (j : Int) + (i : Int) * 8 - 1 ∧
      (j : Int) + (i : Int) * 8 - 1 < ((8 : Nat) : Int) * 8 ∧
      ∃ v, readBuffer ⟨List.replicate 64 0, []⟩ ((j : Int) + (i : Int) * 8 - 1) = .ok v :=
  buffer_accesses_in_bounds 8 256 0x3C (List.replicate 64 0) [] (by decide) (by decide) rfl

theorem pairAt_renderTrace (N : Nat) (B : List Nat) (p : Nat) (hp : p < 8 * N) :
    pairAt (renderTrace N B) p = some (p % 8 + 1, B.getD p 0 % 256) := by
  unfold pairAt
  rw [renderTrace, transactions_frames, renderPairs_getElem? N B p hp]
  simp only [Option.some_bind]
  rw [columnPairs_target]
  have e : p % 8 + 1 - 1 + p / 8 * 8 = p := by omega
  rw [e]

theorem pushed_getElem? (B : List Nat) (v p : Nat) (hp : p + 1 < B.length) :
    (B.drop 1 ++ [v])[p]? = B[p + 1]? := by
  rw [List.getElem?_append_left (by simp; omega), List.getElem?_drop, Nat.add_comm]

theorem pushed_last (B : List Nat) (v : Nat) :
    (B.drop 1 ++ [v])[B.length - 1]? = some v := by
  rw [List.getElem?_append_right (by simp)]
  simp

/-- C14 (amended to chain lengths 1 to 32): one column of movement per scroll
step. For `1 ≤ N ≤ 32`, a byte buffer `B` of length `L = 8 * N` and a byte `x`:
render, `pushBuffer(x)`, render. The pair that the second render transmits for
the flat column position `p` has, for every `p < L - 1`, the data byte that the
first render transmitted for position `p + 1` (also across a device boundary),
and for `p = L - 1` the data byte `x`. -/
theorem one_column_per_step (N fuel x : Nat) (B : List Nat) (tr : List Event)
    (hN1 : 1 ≤ N) (hN : N ≤ 32) (hf : 256 ≤ fuel) (hB : B.length = 8 * N)
    (hbyte : ∀ v ∈ B, v < 256) (hx : x < 256) :
    ∃ (before after : List Event) (B' : List Nat),
      displayBuffer N fuel ⟨B, tr⟩ = .ok ⟨B, tr ++ before⟩ ∧
      pushBuffer N fuel x ⟨B, tr ++ before⟩ = .ok ⟨B', tr ++ before⟩ ∧
      displayBuffer N fuel ⟨B', tr ++ before⟩ = .ok ⟨B', tr ++ before ++ after⟩ ∧
      (∀ p, p + 1 < 8 * N →
        pairAt before (p + 1) = some ((p + 1) % 8 + 1, B.getD (p + 1) 0) ∧
        pairAt after p = some (p % 8 + 1, B.getD (p + 1) 0)) ∧
      pairAt after (8 * N - 1) = some (8, x) := by
  have hl : (B.drop 1 ++ [x % 256]).length = 8 * N := by simp; omega
  refine ⟨renderTrace N B, renderTrace N (B.drop 1 ++ [x % 256]), B.drop 1 ++ [x % 256],
    displayBuffer_run N fuel ⟨B, tr⟩ (by omega) hf hB,
    pushBuffer_run N fuel x ⟨B, tr ++ renderTrace N B⟩ hN1 hN hf hB,
    displayBuffer_run N fuel ⟨B.drop 1 ++ [x % 256], tr ++ renderTrace N B⟩ (by omega) hf hl,
    ?_, ?_⟩
  · intro p hp
    rw [pairAt_renderTrace N B (p + 1) (by omega),
      pairAt_renderTrace N _ p (by omega), getD_mod_of_bytes B hbyte (p + 1) (by omega)]
    refine ⟨rfl, ?_⟩
    simp only [List.getD_eq_getElem?_getD]
    rw [pushed_getElem? B _ p (by omega), ← List.getD_eq_getElem?_getD,
      getD_mod_of_bytes B hbyte (p + 1) (by omega)]
  · rw [pairAt_renderTrace N _ (8 * N - 1) (by omega)]
    have e : (B.drop 1 ++ [x % 256]).getD (8 * N - 1) 0 = x % 256 := by
      simp only [List.getD_eq_getElem?_getD]
      rw [← hB, pushed_last B _]
      rfl
    rw [e, Nat.mod_mod, Nat.mod_eq_of_lt hx]
    have : (8 * N - 1) % 8 + 1 = 8 := by omega
    rw [this]

/-- C14 witness: two devices; position 7 (device 0, column 8) takes the old
byte of position 8 (device 1, column 1). -/
theorem one_column_per_step_witness :
    ∃ (before after : List Event) (B' : List Nat),
      displayBuffer 2 256 ⟨[1, 2, 3, 4, 5, 6, 7, 8, 9, 10, 11, 12, 13, 14, 15, 16], []⟩
        = .ok ⟨[1, 2, 3, 4, 5, 6, 7, 8, 9, 10, 11, 12, 13, 14, 15, 16], [] ++ before⟩ ∧
      pushBuffer 2 256 0x3C
          ⟨[1, 2, 3, 4, 5, 6, 7, 8, 9, 10, 11, 12, 13, 14, 15, 16], [] ++ before⟩
        = .ok ⟨B', [] ++ before⟩ ∧
      displayBuffer 2 256 ⟨B', [] ++ before⟩ = .ok ⟨B', [] ++ before ++ after⟩ ∧
      (∀ p, p + 1 < 8 * 2 →
        pairAt before (p + 1) = some ((p + 1) % 8 + 1,
          [1, 2, 3, 4, 5, 6, 7, 8, 9, 10, 11, 12, 13, 14, 15, 16].getD (p + 1) 0) ∧
        pairAt after p = some (p % 8 + 1,
          [1, 2, 3, 4, 5, 6, 7, 8, 9, 10, 11, 12, 13, 14, 15, 16].getD (p + 1) 0)) ∧
      pairAt after (8 * 2 - 1) = some (8, 0x3C) :=
  one_column_per_step 2 256 0x3C [1, 2, 3, 4, 5, 6, 7, 8, 9, 10, 11, 12, 13, 14, 15, 16] []
    (by decide) (by decide) (by decide) rfl (by decide) (by decide)

/-- C14 counterexample: with `NUM_DEVICES = 33` (a buffer of 264 bytes)
`pushBuffer` never returns, so no scroll step is ever completed and nothing is
rendered after the push. -/
theorem one_column_per_step_fails :
    ¬ ∃ fuel s', pushBuffer 33 fuel 0x3C ⟨List.replicate 264 0, []⟩ = .ok s' := by
  rintro ⟨fuel, s', h⟩
  exact pushBuffer_never_returns 33 (by omega) fuel 0x3C _ s' h

theorem applyWrites_append (R : Nat → Nat → Nat) (xs ys : List (Nat × Nat × Nat)) :
    applyWrites R (xs ++ ys) = applyWrites (applyWrites R xs) ys := by
  simp [applyWrites, List.foldl_append]

theorem foldl_applyTransaction (txs : List (List (Nat × Nat))) :
    ∀ R : Nat → Nat → Nat,
      txs.foldl applyTransaction R = applyWrites R (txs.flatMap (writesFrom 0)) := by
  induction txs with
  | nil => intro R; rfl
  | cons t ts ih =>
    intro R
    rw [List.foldl_cons, ih, List.flatMap_cons, applyWrites_append]
    rfl

theorem applyWrites_value (i r d : Nat) (ws : List (Nat × Nat × Nat)) :
    ∀ R : Nat → Nat → Nat,
      (∀ w ∈ ws, w.1 = i → w.2.1 = r → w.2.2 = d) →
      (R i r = d ∨ ∃ w ∈ ws, w.1 = i ∧ w.2.1 = r) →
      applyWrites R ws i r = d := by
  induction ws with
  | nil =>
    intro R _ h
    rcases h with h | ⟨w, hw, _⟩
    · exact h
    · cases hw
  | cons w ws ih =>
    intro R hall h
    show applyWrites (writeReg R w.1 w.2.1 w.2.2) ws i r = d
    apply ih _ (fun v hv => hall v (List.mem_cons_of_mem _ hv))
    by_cases hw : i = w.1 ∧ r = w.2.1
    · left
      simp only [writeReg, hw, and_self, if_true]
      exact hall w (List.mem_cons_self _ _) hw.1.symm hw.2.symm
    · rcases h with h | ⟨v, hv, hv1, hv2⟩
      · left
        simp only [writeReg, hw, if_false]
        exact h
      · rcases List.mem_cons.mp hv with e | hv'
        · subst e
          exact absurd ⟨hv1.symm, hv2.symm⟩ hw
        · right
          exact ⟨v, hv', hv1, hv2⟩

theorem applyWrites_frame (i r : Nat) (ws : List (Nat × Nat × Nat)) :
    ∀ R : Nat → Nat → Nat,
      (∀ w ∈ ws, ¬ (w.1 = i ∧ w.2.1 = r)) → applyWrites R ws i r = R i r := by
  induction ws with
  | nil => intro R _; rfl
  | cons w ws ih =>
    intro R hall
    show applyWrites (writeReg R w.1 w.2.1 w.2.2) ws i r = R i r
    rw [ih _ (fun v hv => hall v (List.mem_cons_of_mem _ hv))]
    have hw := hall w (List.mem_cons_self _ _)
    have hw2 : ¬ (i = w.1 ∧ r = w.2.1) := fun h => hw ⟨h.1.symm, h.2.symm⟩
    simp only [writeReg, hw2, if_false]

theorem writesFrom_noOps (k : Nat) :
    ∀ (p : Nat) (rest : List (Nat × Nat)),
      writesFrom p (List.replicate k noOp ++ rest) = writesFrom (p + k) rest := by
  induction k with
  | zero => intro p rest; rfl
  | succ k ih =>
    intro p rest
    rw [List.replicate_succ, List.cons_append]
    show (if (0 : Nat) = 0 then writesFrom (p + 1) (List.replicate k noOp ++ rest)
      else (p, 0, 0) :: writesFrom (p + 1) (List.replicate k noOp ++ rest))
      = writesFrom (p + (k + 1)) rest
    rw [if_pos rfl, ih]
    congr 1
    omega

theorem writesFrom_columnPairs (k0 : Nat) (B : List Nat) (i j : Nat) (hj : j ≠ 0) :
    writesFrom 0 (columnPairs k0 B i j) = [(i, j, B.getD (j - 1 + i * 8) 0 % 256)] := by
  unfold columnPairs
  rw [writesFrom_noOps]
  show (if j = 0 then _ else _) = _
  rw [if_neg hj]
  have := writesFrom_noOps (k0 - i) (0 + i + 1) []
  rw [List.append_nil] at this
  rw [this]
  simp [writesFrom]

theorem writesFrom_mem (tx : List (Nat × Nat)) :
    ∀ (p : Nat) (w : Nat × Nat × Nat), w ∈ writesFrom p tx →
      w.2.1 ≠ 0 ∧ (w.2.1, w.2.2) ∈ tx ∧ p ≤ w.1 ∧ w.1 < p + tx.length := by
  induction tx with
  | nil => intro p w h; cases h
  | cons q qs ih =>
    intro p w h
    obtain ⟨a, d⟩ := q
    simp only [writesFrom] at h
    by_cases ha : a = 0
    · rw [if_pos ha] at h
      obtain ⟨h1, h2, h3, h4⟩ := ih (p + 1) w h
      exact ⟨h1, List.mem_cons_of_mem _ h2, by omega, by simp; omega⟩
    · rw [if_neg ha] at h
      rcases List.mem_cons.mp h with e | h'
      · subst e
        exact ⟨ha, List.mem_cons_self _ _, Nat.le_refl _, by simp⟩
      · obtain ⟨h1, h2, h3, h4⟩ := ih (p + 1) w h'
        exact ⟨h1, List.mem_cons_of_mem _ h2, by omega, by simp; omega⟩

theorem writesFrom_replicate_mem (a d : Nat) (ha : a ≠ 0) (k : Nat) :
    ∀ (p i : Nat), p ≤ i → i < p + k → (i, a, d) ∈ writesFrom p (List.replicate k (a, d)) := by
  induction k with
  | zero => intro p i h1 h2; omega
  | succ k ih =>
    intro p i h1 h2
    rw [List.replicate_succ]
    simp only [writesFrom, if_neg ha]
    rcases Nat.eq_or_lt_of_le h1 with e | h
    · subst e
      exact List.mem_cons_self _ _
    · exact List.mem_cons_of_mem _ (ih (p + 1) i h (by omega))

theorem mem_renderPairs (N : Nat) (B : List Nat) (tx : List (Nat × Nat)) :
    tx ∈ renderPairs N B ↔ ∃ i, i < N ∧ ∃ c, c < 8 ∧ columnPairs (N - 1) B i (c + 1) = tx := by
  simp [renderPairs, devicePairs, List.mem_flatMap, List.mem_map, List.mem_range]

theorem chainAfter_frames (R : Nat → Nat → Nat) (txs : List (List (Nat × Nat))) :
    chainAfter R (txs.flatMap frame) = applyWrites R (txs.flatMap (writesFrom 0)) := by
  unfold chainAfter
  rw [transactions_frames, foldl_applyTransaction]

theorem renderWrites_mem (N : Nat) (B : List Nat) (w : Nat × Nat × Nat)
    (h : w ∈ (renderPairs N B).flatMap (writesFrom 0)) :
    ∃ i, i < N ∧ ∃ c, c < 8 ∧ w = (i, c + 1, B.getD (c + i * 8) 0 % 256) := by
  obtain ⟨tx, htx, hw⟩ := List.mem_flatMap.mp h
  obtain ⟨i, hi, c, hc, rfl⟩ := (mem_renderPairs N B tx).mp htx
  rw [writesFrom_columnPairs _ _ _ _ (by omega)] at hw
  exact ⟨i, hi, c, hc, by simpa using hw⟩

theorem renderWrites_of_mem (N : Nat) (B : List Nat) (i c : Nat) (hi : i < N) (hc : c < 8) :
    (i, c + 1, B.getD (c + i * 8) 0 % 256) ∈ (renderPairs N B).flatMap (writesFrom 0) := by
  apply List.mem_flatMap.mpr
  refine ⟨columnPairs (N - 1) B i (c + 1), (mem_renderPairs N B _).mpr ⟨i, hi, c, hc, rfl⟩, ?_⟩
  rw [writesFrom_columnPairs _ _ _ _ (by omega)]
  simp

theorem chainAfter_render_column (N : Nat) (B : List Nat) (R : Nat → Nat → Nat) (i j : Nat)
    (hi : i < N) (hj1 : 1 ≤ j) (hj : j ≤ 8) :
    chainAfter R (renderTrace N B) i j = B.getD (j - 1 + i * 8) 0 % 256 := by
  rw [renderTrace, chainAfter_frames]
  apply applyWrites_value
  · intro w hw h1 h2
    obtain ⟨i', _, c, _, rfl⟩ := renderWrites_mem N B w hw
    simp only at h1 h2 ⊢
    subst h1
    have : c = j - 1 := by omega
    rw [this]
  · right
    refine ⟨(i, (j - 1) + 1, B.getD ((j - 1) + i * 8) 0 % 256),
      renderWrites_of_mem N B i (j - 1) hi (by omega), rfl, ?_⟩
    show j - 1 + 1 = j
    omega

theorem chainAfter_render_frame (N : Nat) (B : List Nat) (R : Nat → Nat → Nat) (k r : Nat)
    (h : N ≤ k ∨ r = 0 ∨ 9 ≤ r) : chainAfter R (renderTrace N B) k r = R k r := by
  rw [renderTrace, chainAfter_frames]
  apply applyWrites_frame
  intro w hw hkr
  obtain ⟨i', hi', c, hc, rfl⟩ := renderWrites_mem N B w hw
  simp only at hkr
  omega

/-- C15 (amended to chain lengths up to 255 and to "writes" for "changes"): a
full render makes the display equal the buffer. The chain is `N` slots, a
transaction is applied positionally, address 0x00 leaves a slot as it is,
another address sets that register of the slot. For `N ≤ 255`, a byte buffer
`B` of length `8 * N` and any prior register state `R`, after `displayBuffer`
slot `i` holds in column `j` the byte `B[(j-1) + i*8]`, all other registers are
as before, and each transaction has `N` pairs and writes exactly one register,
a column register of one slot. -/
theorem render_sets_display (N fuel : Nat) (B : List Nat) (tr : List Event)
    (R : Nat → Nat → Nat) (i j : Nat) (hN : N ≤ 255) (hf : 256 ≤ fuel)
    (hB : B.length = 8 * N) (hbyte : ∀ v ∈ B, v < 256)
    (hi : i < N) (hj1 : 1 ≤ j) (hj : j ≤ 8) :
    ∃ emitted : List Event,
      displayBuffer N fuel ⟨B, tr⟩ = .ok ⟨B, tr ++ emitted⟩ ∧
      chainAfter R emitted i j = B.getD (j - 1 + i * 8) 0 ∧
      (∀ k r, N ≤ k ∨ r = 0 ∨ 9 ≤ r → chainAfter R emitted k r = R k r) ∧
      ∀ tx ∈ transactions emitted, tx.length = N ∧
        ∃ slot a d, slot < N ∧ 1 ≤ a ∧ a ≤ 8 ∧ writesFrom 0 tx = [(slot, a, d)] ∧
          ∀ R' : Nat → Nat → Nat, applyTransaction R' tx = writeReg R' slot a d := by
  refine ⟨renderTrace N B, displayBuffer_run N fuel ⟨B, tr⟩ hN hf hB, ?_, ?_, ?_⟩
  · rw [chainAfter_render_column N B R i j hi hj1 hj, getD_mod_of_bytes B hbyte _ (by omega)]
  · intro k r h
    exact chainAfter_render_frame N B R k r h
  · intro tx htx
    rw [renderTrace, transactions_frames] at htx
    refine ⟨renderPairs_mem_length N B tx htx, ?_⟩
    obtain ⟨i', hi', c, hc, rfl⟩ := (mem_renderPairs N B tx).mp htx
    have hw := writesFrom_columnPairs (N - 1) B i' (c + 1) (by omega)
    refine ⟨i', c + 1, B.getD (c + 1 - 1 + i' * 8) 0 % 256, hi', by omega, by omega, hw, ?_⟩
    intro R'
    unfold applyTransaction
    rw [hw]
    rfl

/-- C15 witness: two devices, slot 1, column 8. -/
theorem render_sets_display_witness :
    ∃ emitted : List Event,
      displayBuffer 2 256 ⟨[1, 2, 3, 4, 5, 6, 7, 8, 9, 10, 11, 12, 13, 14, 15, 16], []⟩
        = .ok ⟨[1, 2, 3, 4, 5, 6, 7, 8, 9, 10, 11, 12, 13, 14, 15, 16], [] ++ emitted⟩ ∧
      chainAfter (fun _ _ => 0xFF) emitted 1 8
        = [1, 2, 3, 4, 5, 6, 7, 8, 9, 10, 11, 12, 13, 14, 15, 16].getD (8 - 1 + 1 * 8) 0 ∧
      (∀ k r, 2 ≤ k ∨ r = 0 ∨ 9 ≤ r →
        chainAfter (fun _ _ => 0xFF) emitted k r = (fun _ _ => 0xFF) k r) ∧
      ∀ tx ∈ transactions emitted, tx.length = 2 ∧
        ∃ slot a d, slot < 2 ∧ 1 ≤ a ∧ a ≤ 8 ∧ writesFrom 0 tx = [(slot, a, d)] ∧
          ∀ R' : Nat → Nat → Nat, applyTransaction R' tx = writeReg R' slot a d :=
  render_sets_display 2 256 [1, 2, 3, 4, 5, 6, 7, 8, 9, 10, 11, 12, 13, 14, 15, 16] []
    (fun _ _ => 0xFF) 1 8 (by decide) (by decide) rfl (by decide) (by decide) (by decide)
    (by decide)

/-- C15 counterexample: with `NUM_DEVICES = 256` the render never returns, so
no slot ever holds the buffer; and on one device whose registers already hold
the bytes of the buffer, the first transaction of a render changes no register
of any slot. -/
theorem render_sets_display_fails :
    (¬ ∃ fuel s', displayBuffer 256 fuel ⟨List.replicate 2048 0, []⟩ = .ok s') ∧
    ∃ (emitted : List Event) (tx : List (Nat × Nat)),
      displayBuffer 1 256 ⟨[0, 0, 0, 0, 0, 0, 0, 0], []⟩
        = .ok ⟨[0, 0, 0, 0, 0, 0, 0, 0], emitted⟩ ∧
      (transactions emitted)[0]? = some tx ∧
      ∀ k r, applyTransaction (fun _ _ => 0) tx k r = (fun _ _ => 0) k r := by
  refine ⟨?_, renderTrace 1 [0, 0, 0, 0, 0, 0, 0, 0], columnPairs 0 [0, 0, 0, 0, 0, 0, 0, 0] 0 1,
    displayBuffer_run 1 256 ⟨[0, 0, 0, 0, 0, 0, 0, 0], []⟩ (by decide) (by decide) rfl, ?_, ?_⟩
  · rintro ⟨fuel, s', h⟩
    exact displayBuffer_never_returns 256 (by omega) fuel _ s' h
  · rw [renderTrace, transactions_frames, renderPairs_getElem? 1 _ 0 (by decide)]
  · intro k r
    unfold applyTransaction
    rw [writesFrom_columnPairs _ _ _ _ (by decide)]
    simp [applyWrites, writeReg]

theorem transactionsFrom_frames_append (txs : List (List (Nat × Nat))) (rest : List Event) :
    transactionsFrom none (txs.flatMap frame ++ rest) = txs ++ transactionsFrom none rest := by
  induction txs with
  | nil => rfl
  | cons t ts ih =>
    rw [List.flatMap_cons, List.append_assoc, transactionsFrom_frame, ih]
    rfl

theorem transactions_scrollTrace (N : Nat) (vs : List Nat) :
    ∀ B : List Nat, transactionsFrom none (scrollTrace N B vs) = scrollPairs N B vs := by
  induction vs with
  | nil => intro B; rfl
  | cons v vs ih =>
    intro B
    show transactionsFrom none ((renderPairs N (bufferAfter B [v])).flatMap frame
        ++ Event.delay DEL :: scrollTrace N (bufferAfter B [v]) vs)
      = renderPairs N (bufferAfter B [v]) ++ scrollPairs N (bufferAfter B [v]) vs
    rw [transactionsFrom_frames_append]
    show _ ++ transactionsFrom none (scrollTrace N (bufferAfter B [v]) vs) = _
    rw [ih]

theorem renderPairs_address (N : Nat) (B : List Nat) (tx : List (Nat × Nat))
    (htx : tx ∈ renderPairs N B) (pr : Nat × Nat) (hpr : pr ∈ tx) : pr.1 ≤ 8 := by
  obtain ⟨i, _, c, hc, rfl⟩ := (mem_renderPairs N B tx).mp htx
  simp only [columnPairs, List.mem_append, List.mem_cons, List.mem_replicate, noOp] at hpr
  rcases hpr with ⟨_, h⟩ | h | ⟨_, h⟩
  · rw [h]; exact Nat.zero_le _
  · rw [h]; show c + 1 ≤ 8; omega
  · rw [h]; exact Nat.zero_le _

theorem clearPairs_address (N : Nat) (tx : List (Nat × Nat)) (htx : tx ∈ clearPairs N)
    (pr : Nat × Nat) (hpr : pr ∈ tx) : pr.1 ≤ 8 := by
  simp only [clearPairs, List.mem_map, List.mem_range] at htx
  obtain ⟨c, hc, rfl⟩ := htx
  rw [List.eq_of_mem_replicate hpr]
  show c + 1 ≤ 8
  omega

theorem scrollPairs_address (N : Nat) (vs : List Nat) :
    ∀ (B : List Nat) (tx : List (Nat × Nat)), tx ∈ scrollPairs N B vs →
      ∀ pr ∈ tx, pr.1 ≤ 8 := by
  induction vs with
  | nil => intro B tx h; cases h
  | cons v vs ih =>
    intro B tx h pr hpr
    rcases List.mem_append.mp h with h1 | h2
    · exact renderPairs_address N _ tx h1 pr hpr
    · exact ih _ tx h2 pr hpr

theorem applyWrites_keeps_control (txs : List (List (Nat × Nat)))
    (h : ∀ tx ∈ txs, ∀ pr ∈ tx, pr.1 ≤ 8) (R : Nat → Nat → Nat) (k r : Nat) (hr : 9 ≤ r) :
    applyWrites R (txs.flatMap (writesFrom 0)) k r = R k r := by
  apply applyWrites_frame
  intro w hw hkr
  obtain ⟨tx, htx, hwt⟩ := List.mem_flatMap.mp hw
  have := h tx htx _ (writesFrom_mem tx 0 w hwt).2.1
  simp only at this
  omega

theorem initWrites_value (N : Nat) (R : Nat → Nat → Nat) (k a d : Nat) (hk : k < N)
    (ha : a ≠ 0) (hmem : List.replicate N (a, d) ∈ initPairs N)
    (huniq : ∀ tx ∈ initPairs N, ∀ pr ∈ tx, pr.1 = a → pr.2 = d) :
    applyWrites R ((initPairs N).flatMap (writesFrom 0)) k a = d := by
  apply applyWrites_value
  · intro w hw _ h2
    obtain ⟨tx, htx, hwt⟩ := List.mem_flatMap.mp hw
    exact huniq tx htx _ (writesFrom_mem tx 0 w hwt).2.1 h2
  · right
    exact ⟨(k, a, d), List.mem_flatMap.mpr ⟨_, hmem,
      writesFrom_replicate_mem a d ha N 0 k (Nat.zero_le _) (by omega)⟩, rfl, rfl⟩

theorem initPairs_pair (N : Nat) (tx : List (Nat × Nat)) (htx : tx ∈ initPairs N)
    (pr : Nat × Nat) (hpr : pr ∈ tx) :
    pr = (0x0A, 0x07) ∨ pr = (0x0B, 0x07) ∨ pr = (0x0C, 0x01) ∨ pr = (0x0F, 0x00) := by
  simp only [initPairs, List.mem_cons, List.mem_singleton, List.not_mem_nil, or_false] at htx
  rcases htx with rfl | rfl | rfl | rfl
  · exact Or.inl (List.eq_of_mem_replicate hpr)
  · exact Or.inr (Or.inl (List.eq_of_mem_replicate hpr))
  · exact Or.inr (Or.inr (Or.inl (List.eq_of_mem_replicate hpr)))
  · exact Or.inr (Or.inr (Or.inr (List.eq_of_mem_replicate hpr)))

theorem initWrites_values (N : Nat) (R : Nat → Nat → Nat) (k : Nat) (hk : k < N) :
    applyWrites R ((initPairs N).flatMap (writesFrom 0)) k 0x0A = 0x07 ∧
    applyWrites R ((initPairs N).flatMap (writesFrom 0)) k 0x0B = 0x07 ∧
    applyWrites R ((initPairs N).flatMap (writesFrom 0)) k 0x0C = 0x01 ∧
    applyWrites R ((initPairs N).flatMap (writesFrom 0)) k 0x0F = 0x00 := by
  refine ⟨?_, ?_, ?_, ?_⟩
  · apply initWrites_value N R k 0x0A 0x07 hk (by decide) (by simp [initPairs])
    intro tx htx pr hpr h
    rcases initPairs_pair N tx htx pr hpr with e | e | e | e <;> rw [e] at h ⊢ <;> simp at h ⊢
  · apply initWrites_value N R k 0x0B 0x07 hk (by decide) (by simp [initPairs])
    intro tx htx pr hpr h
    rcases initPairs_pair N tx htx pr hpr with e | e | e | e <;> rw [e] at h ⊢ <;> simp at h ⊢
  · apply initWrites_value N R k 0x0C 0x01 hk (by decide) (by simp [initPairs])
    intro tx htx pr hpr h
    rcases initPairs_pair N tx htx pr hpr with e | e | e | e <;> rw [e] at h ⊢ <;> simp at h ⊢
  · apply initWrites_value N R k 0x0F 0x00 hk (by decide) (by simp [initPairs])
    intro tx htx pr hpr h
    rcases initPairs_pair N tx htx pr hpr with e | e | e | e <;> rw [e] at h ⊢ <;> simp at h ⊢

theorem chainAfter_main (N : Nat) (B vs : List Nat) (R : Nat → Nat → Nat) (k r : Nat)
    (hr : 9 ≤ r) :
    chainAfter R ((initPairs N).flatMap frame ++ (clearPairs N).flatMap frame
        ++ scrollTrace N B vs) k r
      = applyWrites R ((initPairs N).flatMap (writesFrom 0)) k r := by
  unfold chainAfter transactions
  rw [List.append_assoc, transactionsFrom_frames_append, transactionsFrom_frames_append,
    transactions_scrollTrace, List.foldl_append, foldl_applyTransaction,
    foldl_applyTransaction]
  apply applyWrites_keeps_control _ _ _ k r hr
  intro tx htx pr hpr
  rcases List.mem_append.mp htx with h | h
  · exact clearPairs_address N tx h pr hpr
  · exact scrollPairs_address N vs B tx h pr hpr

/-- C17: rendering never touches configuration. For a chain of `N ≤ 255`
devices and every buffer, every (address, data) pair that `clearMatrix` and
`displayBuffer` emit has its address in 0..8, so on the chain no register with
an address from 0x09 on changes. Hence when `main` has run through start-up
and any number of passes of the scroll loop (chain lengths 1 to 31), every
device still holds what `initMatrix` wrote: intensity 0x07, scan limit 0x07,
shutdown 0x01, display test 0x00. -/
theorem rendering_keeps_configuration (characters : Nat → Nat → Nat) (N fuel : Nat)
    (message B : List Nat) (tr : List Event) (passes : Nat) (R : Nat → Nat → Nat)
    (hN : N ≤ 255) (hf : 256 ≤ fuel) (hB : B.length = 8 * N) :
    (∃ emitted : List Event,
      clearMatrix N fuel ⟨B, tr⟩ = .ok ⟨B, tr ++ emitted⟩ ∧
      (∀ tx ∈ transactions emitted, ∀ pr ∈ tx, pr.1 ≤ 8) ∧
      ∀ k r, 9 ≤ r → chainAfter R emitted k r = R k r) ∧
    (∃ emitted : List Event,
      displayBuffer N fuel ⟨B, tr⟩ = .ok ⟨B, tr ++ emitted⟩ ∧
      (∀ tx ∈ transactions emitted, ∀ pr ∈ tx, pr.1 ≤ 8) ∧
      ∀ k r, 9 ≤ r → chainAfter R emitted k r = R k r) ∧
    (1 ≤ N → N ≤ 31 → message.length < 65536 → message.length < fuel →
      ∃ (B' : List Nat) (emitted : List Event),
        main characters N fuel message passes ⟨B, tr⟩ = .ok ⟨B', tr ++ emitted⟩ ∧
        ∀ k, k < N →
          chainAfter R emitted k 0x0A = 0x07 ∧ chainAfter R emitted k 0x0B = 0x07 ∧
          chainAfter R emitted k 0x0C = 0x01 ∧ chainAfter R emitted k 0x0F = 0x00) := by
  refine ⟨⟨(clearPairs N).flatMap frame, clearMatrix_run N fuel ⟨B, tr⟩ hN hf, ?_, ?_⟩,
    ⟨renderTrace N B, displayBuffer_run N fuel ⟨B, tr⟩ hN hf hB, ?_, ?_⟩, ?_⟩
  · intro tx htx pr hpr
    rw [transactions_frames] at htx
    exact clearPairs_address N tx htx pr hpr
  · intro k r hr
    rw [chainAfter_frames]
    exact applyWrites_keeps_control _ (clearPairs_address N) R k r hr
  · intro tx htx pr hpr
    rw [renderTrace, transactions_frames] at htx
    exact renderPairs_address N B tx htx pr hpr
  · intro k r hr
    exact chainAfter_render_frame N B R k r (Or.inr (Or.inr hr))
  · intro hN1 hN31 hM hfM
    refine ⟨bufferAfter (List.replicate (8 * N) 0) (cycles (glyphStream characters message) passes),
      (initPairs N).flatMap frame ++ (clearPairs N).flatMap frame
        ++ scrollTrace N (List.replicate (8 * N) 0)
          (cycles (glyphStream characters message) passes), ?_, ?_⟩
    · rw [main_run characters N fuel message passes ⟨B, tr⟩ hN1 hN31 hf hB hM hfM]
      simp [afterScroll, List.append_assoc]
    · intro k hk
      have hv := initWrites_values N R k hk
      refine ⟨?_, ?_, ?_, ?_⟩
      · rw [chainAfter_main N _ _ R k 0x0A (by decide)]; exact hv.1
      · rw [chainAfter_main N _ _ R k 0x0B (by decide)]; exact hv.2.1
      · rw [chainAfter_main N _ _ R k 0x0C (by decide)]; exact hv.2.2.1
      · rw [chainAfter_main N _ _ R k 0x0F (by decide)]; exact hv.2.2.2

/-- C17 witness: the configured chain of 8 devices, the message "Hi", three
passes, registers that all held 0xFF before. -/
theorem rendering_keeps_configuration_witness :
    (∃ emitted : List Event,
      clearMatrix 8 256 ⟨List.replicate 64 0, []⟩ = .ok ⟨List.replicate 64 0, [] ++ emitted⟩ ∧
      (∀ tx ∈ transactions emitted, ∀ pr ∈ tx, pr.1 ≤ 8) ∧
      ∀ k r, 9 ≤ r → chainAfter (fun _ _ => 0xFF) emitted k r = (fun _ _ => 0xFF) k r) ∧
    (∃ emitted : List Event,
      displayBuffer 8 256 ⟨List.replicate 64 0, []⟩
        = .ok ⟨List.replicate 64 0, [] ++ emitted⟩ ∧
      (∀ tx ∈ transactions emitted, ∀ pr ∈ tx, pr.1 ≤ 8) ∧
      ∀ k r, 9 ≤ r → chainAfter (fun _ _ => 0xFF) emitted k r = (fun _ _ => 0xFF) k r) ∧
    (1 ≤ 8 → 8 ≤ 31 → [72, 105].length < 65536 → [72, 105].length < 256 →
      ∃ (B' : List Nat) (emitted : List Event),
        main (fun r k => (r + k) % 256) 8 256 [72, 105] 3 ⟨List.replicate 64 0, []⟩
          = .ok ⟨B', [] ++ emitted⟩ ∧
        ∀ k, k < 8 →
          chainAfter (fun _ _ => 0xFF) emitted k 0x0A = 0x07 ∧
          chainAfter (fun _ _ => 0xFF) emitted k 0x0B = 0x07 ∧
          chainAfter (fun _ _ => 0xFF) emitted k 0x0C = 0x01 ∧
          chainAfter (fun _ _ => 0xFF) emitted k 0x0F = 0x00) :=
  rendering_keeps_configuration (fun r k => (r + k) % 256) 8 256 [72, 105]
    (List.replicate 64 0) [] 3 (fun _ _ => 0xFF) (by decide) (by decide) rfl

end Max7219
